import Mathlib

/-!
Shallow embedding of the reverse-trading-bot worker
(`src/workers/reverse-trading-bot.ts`) together with the pieces of the data
model (`src/db/schema/trading-bots.ts`) that its handlers read and write.

Conventions of the embedding:
* JavaScript numbers are modelled as exact rationals `ℚ`; timestamps
  (millisecond epochs from `Date.now()` / `new Date(...)`) as integers `ℤ`.
* The D1 database is a record of lists of rows; SQL `SELECT ... WHERE` is
  `List.filter`, `UPDATE ... WHERE id = ?` maps the matching rows, and
  `INSERT` appends.  Database operations themselves are assumed not to fail.
* Every call to the OKX exchange client is an input of the handler: the
  outcome of `placeMarketOrder` is a `PlaceResult` (an exception, or a venue
  response with a code and an order id), the outcome of `getOrderDetails` is
  an `Option ℚ` (the average fill price, or `none` when the lookup throws),
  and `getMarkPrice` is an `Option ℚ`.  Loops that place one order per row
  receive one outcome per row id.
* Handlers return the new database state together with the list of market
  orders they attempted to place, in order.
-/

namespace ReverseBot

/-- JavaScript `Math.round`: round half toward positive infinity. -/
def jround (x : ℚ) : ℤ := ⌊x + 1 / 2⌋

/-- The pervasive `Math.round(v * 10) / 10` rounding to one decimal. -/
def round1 (x : ℚ) : ℚ := (jround (x * 10) : ℚ) / 10

/-- JavaScript `v || d` for a numeric config field: `undefined` and `0` are
falsy and fall back to the default. -/
def jsOr (v : Option ℚ) (d : ℚ) : ℚ :=
  match v with
  | none => d
  | some x => if x = 0 then d else x

/-- The strategy-specific configuration blob (`instance.config`).  Absent
fields are `none`; the numeric-keyed tier maps are partial functions. -/
structure Config where
  maxConcurrentPositions : Option ℚ := none
  basePositionSize : Option ℚ := none
  maxPositionSize : Option ℚ := none
  profitTarget : Option ℚ := none
  stopLoss : Option ℚ := none
  positionTimeoutHours : Option ℚ := none
  positionSizes : Option (ℤ → Option ℚ) := none
  profitThresholds : Option (ℤ → Option ℚ) := none
  closeRatios : Option (ℤ → Option ℚ) := none
  emergencyStopLoss : Option ℚ := none
  sequenceTimeoutHours : Option ℚ := none

/-- Default `positionSizes` map ``{ 1: 10, 2: 20, ..., 8: 80 }``. -/
def defaultPositionSizes : ℤ → Option ℚ := fun q =>
  if 1 ≤ q ∧ q ≤ 8 then some ((q : ℚ) * 10) else none

/-- Default `profitThresholds` map ``{ 1: 0.0, 2: 0.0, 3: 0.50, 4: 0.30, ..., 8: 0.30 }``. -/
def defaultProfitThresholds : ℤ → Option ℚ := fun q =>
  if q = 1 ∨ q = 2 then some 0
  else if q = 3 then some (1 / 2)
  else if 4 ≤ q ∧ q ≤ 8 then some (3 / 10)
  else none

/-- Default `closeRatios` map ``{ 1: 0.0, 2: 0.0, 3: 0.50, 4: 0.80, 5: 0.90, 6: 0.90, 7: 0.90, 8: 1.00 }``. -/
def defaultCloseRatios : ℤ → Option ℚ := fun q =>
  if q = 1 ∨ q = 2 then some 0
  else if q = 3 then some (1 / 2)
  else if q = 4 then some (4 / 5)
  else if q = 5 ∨ q = 6 ∨ q = 7 then some (9 / 10)
  else if q = 8 then some 1
  else none

/-- A `strategy_instances` row as read by the worker. -/
structure StrategyInstance where
  id : String
  name : String
  marketPair : String
  strategyType : String
  config : Config
  status : String

/-- A `simple_positions` row. -/
structure SimplePosition where
  id : String
  strategy_instance_id : String
  side : String
  size : ℚ
  entry_price : ℚ
  status : String
  order_id : String
  opened_at : ℤ
  closed_at : Option ℤ
  close_reason : Option String
  pnl : Option ℚ
deriving DecidableEq

/-- A `turtle_sequences` row. -/
structure TurtleSequence where
  id : String
  strategy_instance_id : String
  direction : String
  status : String
  current_max_quantity : ℤ
  started_at : ℤ
  closed_at : Option ℤ
deriving DecidableEq

/-- A `turtle_positions` row. -/
structure TurtlePosition where
  id : String
  sequence_id : String
  side : String
  size : ℚ
  entry_price : ℚ
  signal_quantity : ℤ
  status : String
  order_id : String
  opened_at : ℤ
deriving DecidableEq

/-- The mutable tables of the D1 database (the `strategy_instances` table is
read-only for the worker and is passed separately). -/
structure DB where
  simple_positions : List SimplePosition
  turtle_sequences : List TurtleSequence
  turtle_positions : List TurtlePosition
deriving DecidableEq

/-- A market order attempt sent to `okx.placeMarketOrder`. -/
structure Order where
  instId : String
  side : String
  sz : ℚ
deriving DecidableEq

/-- Outcome of one `okx.placeMarketOrder` call as observed by the caller:
either the HTTP request threw, or the venue answered with a result code and
an order id. -/
inductive PlaceResult where
  | exn : PlaceResult
  | res (code : String) (ordId : String) : PlaceResult
deriving DecidableEq

/-- Result of the regular-expression layer of `parseSignalText`: which of the
two patterns matched, with its capture groups.  `openText tag qty market`
stands for a text matching ``[开多|开空] 数量:(digits) 市场:(word)`` and
`closeText tag` for a text containing ``[平多]`` or ``[平空]``. -/
inductive RawSignal where
  | openText (tag : String) (qty : ℤ) (market : String) : RawSignal
  | closeText (tag : String) : RawSignal
  | other : RawSignal

/-- The structured directive produced by `parseSignalText`. -/
structure ParsedSignal where
  action : String
  side : String
  quantity : ℤ
  marketPair : String
deriving DecidableEq

/-- `parseSignalText` (lines 150-156): open directives carry their parsed
quantity and market; close directives carry quantity 0 and the wildcard
market `*`. -/
def parseSignalText : RawSignal → Option ParsedSignal
  | RawSignal.openText tag qty market =>
      some { action := "open", side := if tag = "开多" then "long" else "short",
             quantity := qty, marketPair := market }
  | RawSignal.closeText tag =>
      some { action := "close", side := if tag = "平多" then "long" else "short",
             quantity := 0, marketPair := "*" }
  | RawSignal.other => none

/-- Which handler `processSignal` (lines 71-93) invokes on which instance:
the instance lookup is `status = 'running' AND market_pair = ?` bound to the
parsed signal's market, then open signals dispatch on the strategy type and
close signals go to `handleControlHandover`. -/
def processSignalDispatch (raw : RawSignal) (instances : List StrategyInstance) :
    List (String × String) :=
  match parseSignalText raw with
  | none => []
  | some s =>
    (instances.filter (fun i => i.status = "running" ∧ i.marketPair = s.marketPair)).filterMap
      (fun i =>
        if s.action = "open" then
          if i.strategyType = "simple-reverse" then some (i.id, "handleSimpleReverseEntry")
          else if i.strategyType = "turtle-reverse" then some (i.id, "handleTurtleReverseEntry")
          else none
        else if s.action = "close" then some (i.id, "handleControlHandover")
        else none)

/-- The `SELECT ... FROM simple_positions WHERE strategy_instance_id = ? AND
status = 'active'` query. -/
def activeSimpleOf (instId : String) (db : DB) : List SimplePosition :=
  db.simple_positions.filter (fun p => p.strategy_instance_id = instId ∧ p.status = "active")

/-- `UPDATE simple_positions SET ... WHERE id = ?`. -/
def updateSimpleRow (pid : String) (f : SimplePosition → SimplePosition) (db : DB) : DB :=
  { db with simple_positions := db.simple_positions.map (fun p => if p.id = pid then f p else p) }

/-- `handleSimpleReverseEntry` (lines 95-118).  `place` and `details` are the
outcomes of the two exchange calls; `newId` is the row id generated by the
insert and `now` the wall clock. -/
def handleSimpleReverseEntry (inst : StrategyInstance) (signal : ParsedSignal)
    (place : PlaceResult) (details : Option ℚ) (newId : String) (now : ℤ)
    (db : DB) : DB × List Order :=
  let config := inst.config
  let activePositions := activeSimpleOf inst.id db
  if ((activePositions.length : ℚ)) ≥ jsOr config.maxConcurrentPositions 5 then (db, [])
  else
    let positionSize :=
      round1 (min (jsOr config.basePositionSize 10 * (signal.quantity : ℚ))
        (jsOr config.maxPositionSize 100))
    let reverseSide := if signal.side = "long" then "sell" else "buy"
    let order : Order := ⟨inst.marketPair, reverseSide, positionSize⟩
    match place with
    | PlaceResult.exn => (db, [order])
    | PlaceResult.res code ordId =>
      if code ≠ "0" then (db, [order])
      else
        match details with
        | none => (db, [order])
        | some avgPx =>
          ({ db with simple_positions := db.simple_positions ++
              [{ id := newId, strategy_instance_id := inst.id,
                 side := if signal.side = "long" then "开空" else "开多",
                 size := positionSize, entry_price := avgPx, status := "active",
                 order_id := ordId, opened_at := now, closed_at := none,
                 close_reason := none, pnl := none }] }, [order])

/-- Percentage PnL of a position at the given mark price (line 132 and
lines 295-297): sign depends on our side. -/
def simplePnl (side : String) (price entry : ℚ) : ℚ :=
  if side = "开多" then (price - entry) / entry else (entry - price) / entry

/-- The close-reason decision of `checkSimpleReversePositions` (lines
134-138), evaluated in priority order. -/
def simpleCloseReason (config : Config) (now : ℤ) (pnl : ℚ) (opened_at : ℤ) : Option String :=
  if pnl ≥ jsOr config.profitTarget (3 / 10) then some "profit_target"
  else if pnl ≤ jsOr config.stopLoss (-(3 / 20)) then some "stop_loss"
  else if ((now - opened_at : ℤ) : ℚ) > jsOr config.positionTimeoutHours 6 * 3600000 then
    some "timeout"
  else none

/-- The loop body of `checkSimpleReversePositions` (lines 130-146) over the
snapshot of active positions.  `closeExn pid` tells whether the closing
`placeMarketOrder` call for that row throws; a throw aborts the whole loop
(the `try` wraps it), which is why the recursion stops there. -/
def simpleCheckLoop (inst : StrategyInstance) (price : ℚ) (now : ℤ)
    (closeExn : String → Bool) : List SimplePosition → DB → DB × List Order
  | [], db => (db, [])
  | pos :: rest, db =>
    if pos.entry_price ≤ 0 then simpleCheckLoop inst price now closeExn rest db
    else
      let pnl := simplePnl pos.side price pos.entry_price
      match simpleCloseReason inst.config now pnl pos.opened_at with
      | none => simpleCheckLoop inst price now closeExn rest db
      | some reason =>
        let order : Order := ⟨inst.marketPair, if pos.side = "开多" then "sell" else "buy", pos.size⟩
        if closeExn pos.id then (db, [order])
        else
          let db' := updateSimpleRow pos.id (fun p =>
            { p with status := "closed", closed_at := some now, close_reason := some reason,
                     pnl := some (pnl * pos.entry_price * pos.size) }) db
          let r := simpleCheckLoop inst price now closeExn rest db'
          (r.1, order :: r.2)

/-- `checkSimpleReversePositions` (lines 120-148).  `markPrice` is the
outcome of `getMarkPrice` (`none` when it throws). -/
def checkSimpleReversePositions (inst : StrategyInstance) (markPrice : Option ℚ) (now : ℤ)
    (closeExn : String → Bool) (db : DB) : DB × List Order :=
  let positions := activeSimpleOf inst.id db
  if positions = [] then (db, [])
  else
    match markPrice with
    | none => (db, [])
    | some price => simpleCheckLoop inst price now closeExn positions db

/-- The direction constants of `handleTurtleReverseEntry` (line 169):
`originalDirection` of the observed signal. -/
def originalDirectionOf (s : ParsedSignal) : String :=
  if s.action = "open" ∧ s.side = "long" then "long" else "short"

/-- Our reverse direction (line 170). -/
def reverseDirectionOf (s : ParsedSignal) : String :=
  if originalDirectionOf s = "long" then "short" else "long"

/-- The exchange-order side of the reverse entry (line 171). -/
def reverseSideOf (s : ParsedSignal) : String :=
  if originalDirectionOf s = "long" then "sell" else "buy"

/-- The persisted side vocabulary of the reverse entry (line 172). -/
def ourSideOf (s : ParsedSignal) : String :=
  if originalDirectionOf s = "long" then "开空" else "开多"

/-- The sequence lookup of `handleTurtleReverseEntry` (lines 176-179): first
`active` sequence of this instance in the reverse direction started within
the last 8 hours (the SQL window is hardcoded to `-8 hours`). -/
def findTurtleSequence (instId dir : String) (now : ℤ) (db : DB) : Option TurtleSequence :=
  (db.turtle_sequences.filter (fun s => s.strategy_instance_id = instId ∧ s.status = "active" ∧
      s.direction = dir ∧ s.started_at > now - 8 * 3600000)).head?

/-- `positionSizes[signalQuantity] || signalQuantity * 10` (line 210), with
the whole map defaulting when absent from the config (line 165). -/
def turtleBaseSize (config : Config) (q : ℤ) : ℚ :=
  jsOr ((config.positionSizes.getD defaultPositionSizes) q) ((q : ℚ) * 10)

/-- The turtle entry size (line 211). -/
def turtleSize (config : Config) (q : ℤ) : ℚ :=
  round1 (min (turtleBaseSize config q) (jsOr config.maxPositionSize 1000))

/-- Lines 209-241 of `handleTurtleReverseEntry`: size the entry, place the
reverse order, and on success insert the turtle position and raise the
sequence's `current_max_quantity` to `max(current, signalQuantity)`. -/
def turtleEntryCore (inst : StrategyInstance) (marketPair : String) (place : PlaceResult)
    (details : Option ℚ) (sequenceId : String) (currentMaxQuantity signalQuantity : ℤ)
    (reverseSide ourSide : String) (newPosId : String) (now : ℤ) (db : DB) : DB × List Order :=
  let positionSize := turtleSize inst.config signalQuantity
  if positionSize ≤ 0 then (db, [])
  else
    let order : Order := ⟨marketPair, reverseSide, positionSize⟩
    match place with
    | PlaceResult.exn => (db, [order])
    | PlaceResult.res code ordId =>
      if code ≠ "0" then (db, [order])
      else
        match details with
        | none => (db, [order])
        | some avgPx =>
          let newPos : TurtlePosition :=
            { id := newPosId, sequence_id := sequenceId, side := ourSide, size := positionSize,
              entry_price := avgPx, signal_quantity := signalQuantity, status := "active",
              order_id := ordId, opened_at := now }
          let db1 := { db with turtle_positions := db.turtle_positions ++ [newPos] }
          let newMax := max currentMaxQuantity signalQuantity
          let upd : TurtleSequence → TurtleSequence := fun s =>
            if s.id = sequenceId then { s with current_max_quantity := newMax } else s
          ({ db1 with turtle_sequences := db1.turtle_sequences.map upd }, [order])

/-- `handleTurtleReverseEntry` (lines 160-245).  `newSeqId` and `newPosId`
are the generated row ids; the market of the order is the signal's market. -/
def handleTurtleReverseEntry (inst : StrategyInstance) (signal : ParsedSignal)
    (place : PlaceResult) (details : Option ℚ) (newSeqId newPosId : String) (now : ℤ)
    (db : DB) : DB × List Order :=
  match findTurtleSequence inst.id (reverseDirectionOf signal) now db with
  | some sequence =>
    let dup := db.turtle_positions.filter (fun p => p.sequence_id = sequence.id ∧
        p.signal_quantity = signal.quantity ∧ p.status = "active")
    if dup ≠ [] then (db, [])
    else
      turtleEntryCore inst signal.marketPair place details sequence.id
        sequence.current_max_quantity signal.quantity (reverseSideOf signal) (ourSideOf signal)
        newPosId now db
  | none =>
    let newSeq : TurtleSequence :=
      { id := newSeqId, strategy_instance_id := inst.id,
        direction := reverseDirectionOf signal, status := "active", current_max_quantity := 0,
        started_at := now, closed_at := none }
    turtleEntryCore inst signal.marketPair place details newSeqId 0 signal.quantity
      (reverseSideOf signal) (ourSideOf signal) newPosId now
      { db with turtle_sequences := db.turtle_sequences ++ [newSeq] }

/-- The `SELECT * FROM turtle_positions WHERE sequence_id = ? AND status =
'active'` query. -/
def activeTPOf (seqId : String) (db : DB) : List TurtlePosition :=
  db.turtle_positions.filter (fun p => p.sequence_id = seqId ∧ p.status = "active")

/-- `UPDATE turtle_sequences SET status = 'closed', closed_at = ? WHERE id = ?`. -/
def closeSeqRow (seqId : String) (now : ℤ) (db : DB) : DB :=
  let upd : TurtleSequence → TurtleSequence := fun s =>
    if s.id = seqId then { s with status := "closed", closed_at := some now } else s
  { db with turtle_sequences := db.turtle_sequences.map upd }

/-- `UPDATE turtle_positions SET status = 'closed' WHERE id = ?`. -/
def closeTPRow (pid : String) (db : DB) : DB :=
  let upd : TurtlePosition → TurtlePosition := fun p =>
    if p.id = pid then { p with status := "closed" } else p
  { db with turtle_positions := db.turtle_positions.map upd }

/-- `UPDATE turtle_positions SET size = ? WHERE id = ?`. -/
def setTPSize (pid : String) (sz : ℚ) (db : DB) : DB :=
  let upd : TurtlePosition → TurtlePosition := fun p =>
    if p.id = pid then { p with size := sz } else p
  { db with turtle_positions := db.turtle_positions.map upd }

/-- The per-position loop of `closeEntireSequence` (lines 398-412): a throw
is caught per position, a non-zero venue code leaves the row untouched, and
a `'0'` code marks the row closed. -/
def closeSeqLoop (marketPair : String) (closeRes : String → PlaceResult) :
    List TurtlePosition → DB → DB × List Order
  | [], db => (db, [])
  | pos :: rest, db =>
    let order : Order := ⟨marketPair, if pos.side = "开多" then "sell" else "buy", pos.size⟩
    let db' := match closeRes pos.id with
      | PlaceResult.exn => db
      | PlaceResult.res code _ => if code = "0" then closeTPRow pos.id db else db
    let r := closeSeqLoop marketPair closeRes rest db'
    (r.1, order :: r.2)

/-- `closeEntireSequence` (lines 377-424).  The join resolves the market pair
through the sequence's instance; when the join yields no rows the sequence is
just marked closed.  Both paths end by stamping the sequence row closed. -/
def closeEntireSequence (instances : List StrategyInstance) (sequenceId : String)
    (closeRes : String → PlaceResult) (now : ℤ) (db : DB) : DB × List Order :=
  let seqRow := db.turtle_sequences.find? (fun s => s.id = sequenceId)
  let marketOf := seqRow.bind
    (fun s => (instances.find? (fun i => i.id = s.strategy_instance_id)).map (fun i => i.marketPair))
  let positions := match marketOf with
    | none => []
    | some _ => activeTPOf sequenceId db
  if positions = [] then (closeSeqRow sequenceId now db, [])
  else
    let r := closeSeqLoop (marketOf.getD "") closeRes positions db
    (closeSeqRow sequenceId now r.1, r.2)

/-- The per-position loop of `executePartialProfitTaking` (lines 341-370):
skip when the rounded close size is not positive; on a filled close with
retrievable details, fully close the row when the remainder is within the
`0.001` epsilon, else persist the reduced size.  `details pid` is the
`getOrderDetails` outcome for that row's close order. -/
def partialCloseLoop (marketPair : String) (closeRatio : ℚ) (closeRes : String → PlaceResult)
    (details : String → Option ℚ) : List TurtlePosition → DB → DB × List Order
  | [], db => (db, [])
  | pos :: rest, db =>
    let closeSize := round1 (pos.size * closeRatio)
    if closeSize ≤ 0 then partialCloseLoop marketPair closeRatio closeRes details rest db
    else
      let order : Order := ⟨marketPair, if pos.side = "开多" then "sell" else "buy", closeSize⟩
      let db' := match closeRes pos.id with
        | PlaceResult.exn => db
        | PlaceResult.res code _ =>
          if code = "0" then
            match details pos.id with
            | none => db
            | some _ =>
              if pos.size - closeSize ≤ 1 / 1000 then closeTPRow pos.id db
              else setTPSize pos.id (pos.size - closeSize) db
          else db
      let r := partialCloseLoop marketPair closeRatio closeRes details rest db'
      (r.1, order :: r.2)

/-- `executePartialProfitTaking` (lines 331-375). -/
def executePartialProfitTaking (sequenceId : String) (closeRatio : ℚ) (marketPair : String)
    (closeRes : String → PlaceResult) (details : String → Option ℚ) (db : DB) : DB × List Order :=
  let positions := activeTPOf sequenceId db
  if positions = [] then (db, [])
  else partialCloseLoop marketPair closeRatio closeRes details positions db

/-- The `for (const pos of positions)` accumulation of `totalPnl` and
`totalInvested` (lines 289-302): positions with a non-positive entry price
are skipped, the others add `pnl * positionValue` and `positionValue`. -/
def seqTotalsGo (price : ℚ) : List TurtlePosition → ℚ × ℚ → ℚ × ℚ
  | [], acc => acc
  | pos :: rest, acc =>
    seqTotalsGo price rest
      (if pos.entry_price ≤ 0 then acc
       else
        (acc.1 + simplePnl pos.side price pos.entry_price * (pos.entry_price * pos.size),
         acc.2 + pos.entry_price * pos.size))

/-- The `(totalPnl, totalInvested)` pair of one sequence, started from
`(0, 0)`. -/
def seqTotals (price : ℚ) (positions : List TurtlePosition) : ℚ × ℚ :=
  seqTotalsGo price positions (0, 0)

/-- The per-call exchange outcomes consumed by one turtle reconciliation
pass: `closeRes pid` for the closing order of row `pid`, `details pid` for
its detail lookup. -/
structure TurtleOracles where
  closeRes : String → PlaceResult
  details : String → Option ℚ

/-- The body of the `for (const sequence of activeSequences)` loop of
`checkTurtleReverseSequences` (lines 266-324) for one sequence. -/
def turtleSeqStep (inst : StrategyInstance) (price : ℚ) (now : ℤ)
    (instances : List StrategyInstance) (oracles : TurtleOracles)
    (sequence : TurtleSequence) (db : DB) : DB × List Order :=
  let config := inst.config
  if ((now - sequence.started_at : ℤ) : ℚ) > jsOr config.sequenceTimeoutHours 8 * 3600000 then
    closeEntireSequence instances sequence.id oracles.closeRes now db
  else
    let positions := activeTPOf sequence.id db
    if positions = [] then (closeSeqRow sequence.id now db, [])
    else
      let totals := seqTotals price positions
      if totals.2 ≤ 0 then (db, [])
      else
        let pnlPercentage := totals.1 / totals.2
        if pnlPercentage ≤ jsOr config.emergencyStopLoss (-(1 / 5)) then
          closeEntireSequence instances sequence.id oracles.closeRes now db
        else
          let profitThreshold :=
            jsOr ((config.profitThresholds.getD defaultProfitThresholds)
              sequence.current_max_quantity) (3 / 10)
          let closeRatio :=
            jsOr ((config.closeRatios.getD defaultCloseRatios) sequence.current_max_quantity) 0
          if profitThreshold > 0 ∧ closeRatio > 0 ∧ pnlPercentage ≥ profitThreshold then
            executePartialProfitTaking sequence.id closeRatio inst.marketPair
              oracles.closeRes oracles.details db
          else (db, [])

/-- The fold of `turtleSeqStep` over the snapshot of active sequences. -/
def turtleSeqFold (inst : StrategyInstance) (price : ℚ) (now : ℤ)
    (instances : List StrategyInstance) (oracles : TurtleOracles) :
    List TurtleSequence → DB → DB × List Order
  | [], db => (db, [])
  | s :: rest, db =>
    let r1 := turtleSeqStep inst price now instances oracles s db
    let r2 := turtleSeqFold inst price now instances oracles rest r1.1
    (r2.1, r1.2 ++ r2.2)

/-- `checkTurtleReverseSequences` (lines 247-329). -/
def checkTurtleReverseSequences (inst : StrategyInstance) (markPrice : Option ℚ) (now : ℤ)
    (instances : List StrategyInstance) (oracles : TurtleOracles) (db : DB) : DB × List Order :=
  let activeSequences := db.turtle_sequences.filter
    (fun s => s.strategy_instance_id = inst.id ∧ s.status = "active")
  if activeSequences = [] then (db, [])
  else
    match markPrice with
    | none => (db, [])
    | some price => turtleSeqFold inst price now instances oracles activeSequences db

/-- The simple-position loop of `handleControlHandover` (lines 440-452): a
throw is caught per position; any non-throwing call (the venue code is not
checked here) marks the row closed with reason `control_handover`. -/
def handoverSimpleLoop (marketPair : String) (closeRes : String → PlaceResult) (now : ℤ) :
    List SimplePosition → DB → DB × List Order
  | [], db => (db, [])
  | pos :: rest, db =>
    let order : Order := ⟨marketPair, if pos.side = "开多" then "sell" else "buy", pos.size⟩
    let db' := match closeRes pos.id with
      | PlaceResult.exn => db
      | PlaceResult.res _ _ => updateSimpleRow pos.id (fun p =>
          { p with status := "closed", closed_at := some now,
                   close_reason := some "control_handover" }) db
    let r := handoverSimpleLoop marketPair closeRes now rest db'
    (r.1, order :: r.2)

/-- The sequence loop of `handleControlHandover` (lines 460-464), delegating
to `closeEntireSequence` for each active sequence id. -/
def handoverSeqFold (instances : List StrategyInstance) (closeRes : String → PlaceResult)
    (now : ℤ) : List String → DB → DB × List Order
  | [], db => (db, [])
  | sid :: rest, db =>
    let r1 := closeEntireSequence instances sid closeRes now db
    let r2 := handoverSeqFold instances closeRes now rest r1.1
    (r2.1, r1.2 ++ r2.2)

/-- `handleControlHandover` (lines 428-471). -/
def handleControlHandover (inst : StrategyInstance) (closeRes : String → PlaceResult)
    (now : ℤ) (instances : List StrategyInstance) (db : DB) : DB × List Order :=
  let simplePositions := activeSimpleOf inst.id db
  let r1 := handoverSimpleLoop inst.marketPair closeRes now simplePositions db
  let seqIds := (r1.1.turtle_sequences.filter
    (fun s => s.strategy_instance_id = inst.id ∧ s.status = "active")).map (fun s => s.id)
  let r2 := handoverSeqFold instances closeRes now seqIds r1.1
  (r2.1, r1.2 ++ r2.2)

/-- Whether an entry's exchange interaction failed: the order call threw, the
venue returned a non-zero code, or the detail lookup threw. -/
def exchangeFailed : PlaceResult → Option ℚ → Bool
  | PlaceResult.exn, _ => true
  | PlaceResult.res code _, d => code ≠ "0" || d.isNone

/-! Arithmetic helpers about the JavaScript rounding. -/

theorem floor_add_half (k : ℤ) : ⌊(k : ℚ) + 1 / 2⌋ = k := by
  rw [Int.floor_int_add]
  norm_num

theorem jround_eval (x : ℚ) (n : ℤ) (h1 : (n : ℚ) ≤ x + 1 / 2) (h2 : x + 1 / 2 < (n : ℚ) + 1) :
    jround x = n := by
  unfold jround
  exact Int.floor_eq_iff.mpr ⟨by exact_mod_cast h1, by exact_mod_cast h2⟩

theorem round1_eval (x : ℚ) (n : ℤ) (h1 : (n : ℚ) ≤ x * 10 + 1 / 2)
    (h2 : x * 10 + 1 / 2 < (n : ℚ) + 1) : round1 x = (n : ℚ) / 10 := by
  unfold round1
  rw [jround_eval (x * 10) n h1 h2]

/-- For a size that is a whole number of tenths and a ratio at most one, the
rounded close size `Math.round(size * ratio * 10) / 10` never exceeds the
size. -/
theorem round1_mul_le_of_tenths (k : ℕ) (r : ℚ) (hr1 : r ≤ 1) :
    round1 ((k : ℚ) / 10 * r) ≤ (k : ℚ) / 10 := by
  unfold round1
  have harg : (k : ℚ) / 10 * r * 10 = (k : ℚ) * r := by ring
  have hle : jround ((k : ℚ) / 10 * r * 10) ≤ (k : ℤ) := by
    unfold jround
    calc ⌊(k : ℚ) / 10 * r * 10 + 1 / 2⌋ ≤ ⌊(k : ℚ) + 1 / 2⌋ := by
          apply Int.floor_le_floor
          have : (k : ℚ) * r ≤ (k : ℚ) := by
            calc (k : ℚ) * r ≤ (k : ℚ) * 1 := by
                  apply mul_le_mul_of_nonneg_left hr1 (by positivity)
              _ = (k : ℚ) := mul_one _
          rw [harg]
          linarith
      _ = (k : ℤ) := floor_add_half _
  have : ((jround ((k : ℚ) / 10 * r * 10)) : ℚ) ≤ (k : ℚ) := by exact_mod_cast hle
  linarith

/-! Shared concrete fixtures used by witnesses and counterexamples. -/

/-- A running simple-reverse instance on the BTC-USDT-SWAP market with an
empty (all-default) configuration. -/
def btcSimpleInstance : StrategyInstance :=
  { id := "inst-1", name := "btc bot", marketPair := "BTC-USDT-SWAP",
    strategyType := "simple-reverse", config := {}, status := "running" }

/-- A running turtle-reverse instance on the BTC-USDT-SWAP market with an
empty (all-default) configuration. -/
def btcTurtleInstance : StrategyInstance :=
  { id := "inst-2", name := "btc turtle", marketPair := "BTC-USDT-SWAP",
    strategyType := "turtle-reverse", config := {}, status := "running" }

/-- An open-long ordinal-3 directive on BTC-USDT-SWAP. -/
def openLong3 : ParsedSignal :=
  { action := "open", side := "long", quantity := 3, marketPair := "BTC-USDT-SWAP" }

/-! ### C1 -/

/-- C1: the claim says a parsed close directive makes signal processing look
up all running instances regardless of market and invoke Control Handover on
each.  In the code the parser emits the literal market `*` for close
directives and `processSignal` filters instances with `market_pair = ?`
bound to it, so a running instance on a real market pair is never selected:
with one running instance on BTC-USDT-SWAP, the dispatch list of a close
signal is empty and no handover runs. -/
theorem C1_close_signal_reaches_no_instance :
    parseSignalText (RawSignal.closeText "平多") =
      some { action := "close", side := "long", quantity := 0, marketPair := "*" } ∧
    btcSimpleInstance.status = "running" ∧
    processSignalDispatch (RawSignal.closeText "平多") [btcSimpleInstance] = [] :=
  ⟨rfl, rfl, rfl⟩

/-! ### C7 -/

/-- C7: duplicate-delivery idempotence of the turtle entry.  If the sequence
lookup finds an active in-window sequence that already holds an active
TurtlePosition with the signal's ordinal quantity, the handler is a no-op:
the database is unchanged and no order is placed. -/
theorem C7_duplicate_ordinal_is_noop (inst : StrategyInstance) (signal : ParsedSignal)
    (place : PlaceResult) (details : Option ℚ) (newSeqId newPosId : String) (now : ℤ)
    (db : DB) (seq : TurtleSequence) (dupPos : TurtlePosition)
    (hfind : findTurtleSequence inst.id (reverseDirectionOf signal) now db = some seq)
    (hmem : dupPos ∈ db.turtle_positions) (hseq : dupPos.sequence_id = seq.id)
    (hq : dupPos.signal_quantity = signal.quantity) (hact : dupPos.status = "active") :
    handleTurtleReverseEntry inst signal place details newSeqId newPosId now db = (db, []) := by
  simp only [handleTurtleReverseEntry, hfind]
  rw [if_pos]
  intro hemp
  have hd : dupPos ∈ db.turtle_positions.filter (fun p => p.sequence_id = seq.id ∧
      p.signal_quantity = signal.quantity ∧ p.status = "active") :=
    List.mem_filter.mpr ⟨hmem, by simp [hseq, hq, hact]⟩
  rw [hemp] at hd
  exact absurd hd (List.not_mem_nil _)

/-- Fixture for the C7 witness: an active long sequence in the window. -/
def c7seq : TurtleSequence :=
  { id := "sqL", strategy_instance_id := "inst-2", direction := "long",
    status := "active", current_max_quantity := 3, started_at := 990, closed_at := none }

/-- Fixture for the C7 witness: the live ordinal-3 position of `c7seq`. -/
def c7pos : TurtlePosition :=
  { id := "tpL", sequence_id := "sqL", side := "开多", size := 30,
    entry_price := 100, signal_quantity := 3, status := "active", order_id := "o1", opened_at := 0 }

/-- Fixture: an open-short ordinal-3 directive (our reverse direction is
long, matching `c7seq`). -/
def openShort3 : ParsedSignal :=
  { action := "open", side := "short", quantity := 3, marketPair := "BTC-USDT-SWAP" }

theorem C7_duplicate_ordinal_is_noop_witness :
    handleTurtleReverseEntry btcTurtleInstance openShort3 (PlaceResult.res "0" "o2") (some 50)
      "new-seq" "new-pos" 1000 ⟨[], [c7seq], [c7pos]⟩ = (⟨[], [c7seq], [c7pos]⟩, []) :=
  C7_duplicate_ordinal_is_noop btcTurtleInstance openShort3 (PlaceResult.res "0" "o2") (some 50)
    "new-seq" "new-pos" 1000 ⟨[], [c7seq], [c7pos]⟩ c7seq c7pos rfl (by simp) rfl rfl rfl

/-! ### C8 -/

/-- The simple-reverse entry size (line 103). -/
def simpleEntrySize (config : Config) (quantity : ℤ) : ℚ :=
  round1 (min (jsOr config.basePositionSize 10 * (quantity : ℚ)) (jsOr config.maxPositionSize 100))

/-- C8: the simple-reverse entry rejects at the concurrency cap without
placing an order or writing a row; below the cap it places exactly one order
whose side is the inverse of the signal's side and whose size is
`min(basePositionSize * quantity, maxPositionSize)` rounded to one decimal,
and on venue success it persists one active row whose side is the
reversed-action vocabulary word (`long` becomes `开空`, `short` becomes
`开多`). -/
theorem C8_simple_entry_reverses_signal (inst : StrategyInstance) (signal : ParsedSignal)
    (place : PlaceResult) (details : Option ℚ) (newId : String) (now : ℤ) (db : DB) :
    (((activeSimpleOf inst.id db).length : ℚ) ≥ jsOr inst.config.maxConcurrentPositions 5 →
      handleSimpleReverseEntry inst signal place details newId now db = (db, [])) ∧
    (((activeSimpleOf inst.id db).length : ℚ) < jsOr inst.config.maxConcurrentPositions 5 →
      (handleSimpleReverseEntry inst signal place details newId now db).2 =
        [⟨inst.marketPair, if signal.side = "long" then "sell" else "buy",
          simpleEntrySize inst.config signal.quantity⟩] ∧
      (∀ ordId avgPx, place = PlaceResult.res "0" ordId → details = some avgPx →
        (handleSimpleReverseEntry inst signal place details newId now db).1.simple_positions =
          db.simple_positions ++
          [{ id := newId, strategy_instance_id := inst.id,
             side := if signal.side = "long" then "开空" else "开多",
             size := simpleEntrySize inst.config signal.quantity,
             entry_price := avgPx, status := "active", order_id := ordId, opened_at := now,
             closed_at := none, close_reason := none, pnl := none }]) ∧
      (exchangeFailed place details = true →
        (handleSimpleReverseEntry inst signal place details newId now db).1 = db)) := by
  constructor
  · intro hcap
    simp [handleSimpleReverseEntry, hcap]
  · intro hcap
    have hcap' : ¬ ((activeSimpleOf inst.id db).length : ℚ) ≥ jsOr inst.config.maxConcurrentPositions 5 :=
      not_le.mpr hcap
    refine ⟨?_, ?_, ?_⟩
    · cases place with
      | exn => simp [handleSimpleReverseEntry, hcap', simpleEntrySize]
      | res code ordId =>
        by_cases hc : code = "0"
        · cases details with
          | none => simp [handleSimpleReverseEntry, hcap', hc, simpleEntrySize]
          | some avgPx => simp [handleSimpleReverseEntry, hcap', hc, simpleEntrySize]
        · simp [handleSimpleReverseEntry, hcap', hc, simpleEntrySize]
    · intro ordId avgPx hplace hdet
      subst hplace
      subst hdet
      simp [handleSimpleReverseEntry, hcap', simpleEntrySize]
    · intro hfail
      cases place with
      | exn => simp [handleSimpleReverseEntry, hcap']
      | res code ordId =>
        by_cases hc : code = "0"
        · subst hc
          have : details = none := by
            cases details with
            | none => rfl
            | some v => simp [exchangeFailed] at hfail
          subst this
          simp [handleSimpleReverseEntry, hcap']
        · simp [handleSimpleReverseEntry, hcap', hc]

theorem C8_simple_entry_reverses_signal_witness :
    (handleSimpleReverseEntry btcSimpleInstance openLong3 (PlaceResult.res "0" "oid") (some 42)
      "new-id" 7 ⟨[], [], []⟩).2 =
      [⟨btcSimpleInstance.marketPair, if openLong3.side = "long" then "sell" else "buy",
        simpleEntrySize btcSimpleInstance.config openLong3.quantity⟩] :=
  ((C8_simple_entry_reverses_signal btcSimpleInstance openLong3 (PlaceResult.res "0" "oid")
      (some 42) "new-id" 7 ⟨[], [], []⟩).2 (by norm_num [activeSimpleOf, jsOr, btcSimpleInstance])).1

/-! ### C9 -/

/-- The running accumulation of `totalPnl` and `totalInvested` agrees with
the closed-form sums over the positions with a positive entry price. -/
theorem seqTotalsGo_eq (price : ℚ) (l : List TurtlePosition) (a b : ℚ) :
    seqTotalsGo price l (a, b) =
      (a + ((l.filter (fun p => ¬ p.entry_price ≤ 0)).map
          (fun p => simplePnl p.side price p.entry_price * (p.entry_price * p.size))).sum,
       b + ((l.filter (fun p => ¬ p.entry_price ≤ 0)).map
          (fun p => p.entry_price * p.size)).sum) := by
  induction l generalizing a b with
  | nil => simp [seqTotalsGo]
  | cons pos rest ih =>
    by_cases h : pos.entry_price ≤ 0
    · simp [seqTotalsGo, h, ih]
    · simp only [seqTotalsGo, if_neg h]
      rw [ih]
      rw [List.filter_cons_of_pos]
      · simp only [List.map_cons, List.sum_cons, Prod.mk.injEq]
        constructor <;> ring
      · simp [h]

/-- C9 (amended): the sequence-level PnL ratio used by the reconciliation
pass equals the notional-weighted average of the positions' percentage PnLs:
the accumulated numerator is `Σ pnl_i * (entry_i * size_i)`, the denominator
is `Σ (entry_i * size_i)`, over the active positions (all with a positive
entry price). -/
theorem C9_sequence_pnl_is_notional_weighted (price : ℚ) (l : List TurtlePosition)
    (hpos : ∀ p ∈ l, 0 < p.entry_price) :
    (seqTotals price l).1 =
      (l.map (fun p => simplePnl p.side price p.entry_price * (p.entry_price * p.size))).sum ∧
    (seqTotals price l).2 = (l.map (fun p => p.entry_price * p.size)).sum ∧
    (seqTotals price l).1 / (seqTotals price l).2 =
      (l.map (fun p => simplePnl p.side price p.entry_price * (p.entry_price * p.size))).sum /
      (l.map (fun p => p.entry_price * p.size)).sum := by
  have hfilter : l.filter (fun p => ¬ p.entry_price ≤ 0) = l := by
    apply List.filter_eq_self.mpr
    intro p hp
    simp [not_le.mpr (hpos p hp)]
  have h := seqTotalsGo_eq price l 0 0
  rw [hfilter] at h
  unfold seqTotals
  rw [h]
  norm_num

/-- Fixture for C9: a long position with entry 100 and size 1 (notional
100). -/
def c9long : TurtlePosition :=
  { id := "a", sequence_id := "s", side := "开多", size := 1,
    entry_price := 100, signal_quantity := 1, status := "active", order_id := "o", opened_at := 0 }

/-- Fixture for C9: a short position with entry 100 and size 2 (notional
200). -/
def c9short : TurtlePosition :=
  { id := "b", sequence_id := "s", side := "开空", size := 2,
    entry_price := 100, signal_quantity := 2, status := "active", order_id := "o", opened_at := 0 }

theorem C9_sequence_pnl_is_notional_weighted_witness :
    (seqTotals 100 [c9long, c9short]).2 =
      ([c9long, c9short].map (fun p => p.entry_price * p.size)).sum :=
  (C9_sequence_pnl_is_notional_weighted 100 [c9long, c9short]
    (by intro p hp; simp [c9long, c9short] at hp; rcases hp with h | h <;> subst h <;> norm_num
          [c9long, c9short])).2.1

/-- C9 counterexample to the claim's final clause: at mark price 100 both
fixture positions have percentage PnL 0, so the weighted average equals the
unweighted mean even though the notionals (100 and 200) differ — the
weighted and unweighted averages do not differ "whenever position notionals
differ". -/
theorem C9_equal_pnls_counterexample :
    c9long.entry_price * c9long.size ≠ c9short.entry_price * c9short.size ∧
    (seqTotals 100 [c9long, c9short]).1 / (seqTotals 100 [c9long, c9short]).2 =
      (simplePnl c9long.side 100 c9long.entry_price +
        simplePnl c9short.side 100 c9short.entry_price) / 2 := by
  constructor
  · norm_num [c9long, c9short]
  · norm_num [seqTotals, seqTotalsGo, simplePnl, c9long, c9short]

/-! ### C3 -/

/-- Whenever the exchange interaction fails, the shared tail of the turtle
entry leaves the database unchanged (this also covers the non-positive size
early return). -/
theorem turtleEntryCore_fail (inst : StrategyInstance) (marketPair : String)
    (place : PlaceResult) (details : Option ℚ) (sequenceId : String)
    (currentMaxQuantity signalQuantity : ℤ) (reverseSide ourSide : String)
    (newPosId : String) (now : ℤ) (db : DB)
    (hfail : exchangeFailed place details = true) :
    (turtleEntryCore inst marketPair place details sequenceId currentMaxQuantity signalQuantity
      reverseSide ourSide newPosId now db).1 = db := by
  cases place with
  | exn =>
    by_cases hsz : turtleSize inst.config signalQuantity ≤ 0 <;>
      simp [turtleEntryCore, hsz]
  | res code ordId =>
    by_cases hsz : turtleSize inst.config signalQuantity ≤ 0
    · simp [turtleEntryCore, hsz]
    · by_cases hc : code = "0"
      · subst hc
        have : details = none := by
          cases details with
          | none => rfl
          | some v => simp [exchangeFailed] at hfail
        subst this
        simp [turtleEntryCore, hsz]
      · simp [turtleEntryCore, hsz, hc]

/-- C3 (amended): an exchange failure during entry persists no position row
and modifies no existing row.  The simple-reverse handler leaves the
database fully unchanged; the turtle-reverse handler leaves the simple and
turtle position tables unchanged and either leaves the sequence table
unchanged (when a reusable sequence existed, or the duplicate guard fired)
or leaves behind exactly the one freshly created empty sequence row that was
inserted before the exchange call. -/
theorem C3_exchange_failure_persists_no_position (inst : StrategyInstance)
    (signal : ParsedSignal) (place : PlaceResult) (details : Option ℚ)
    (newId newSeqId newPosId : String) (now : ℤ) (db : DB)
    (hfail : exchangeFailed place details = true) :
    (handleSimpleReverseEntry inst signal place details newId now db).1 = db ∧
    (handleTurtleReverseEntry inst signal place details newSeqId newPosId now db).1.simple_positions
        = db.simple_positions ∧
    (handleTurtleReverseEntry inst signal place details newSeqId newPosId now db).1.turtle_positions
        = db.turtle_positions ∧
    ((handleTurtleReverseEntry inst signal place details newSeqId newPosId now db).1.turtle_sequences
        = db.turtle_sequences ∨
     (handleTurtleReverseEntry inst signal place details newSeqId newPosId now db).1.turtle_sequences
        = db.turtle_sequences ++
          [{ id := newSeqId, strategy_instance_id := inst.id,
             direction := reverseDirectionOf signal, status := "active",
             current_max_quantity := 0, started_at := now, closed_at := none }]) := by
  have hsimple : (handleSimpleReverseEntry inst signal place details newId now db).1 = db := by
    by_cases hcap : ((activeSimpleOf inst.id db).length : ℚ) ≥ jsOr inst.config.maxConcurrentPositions 5
    · simp [handleSimpleReverseEntry, hcap]
    · cases place with
      | exn => simp [handleSimpleReverseEntry, hcap]
      | res code ordId =>
        by_cases hc : code = "0"
        · subst hc
          have : details = none := by
            cases details with
            | none => rfl
            | some v => simp [exchangeFailed] at hfail
          subst this
          simp [handleSimpleReverseEntry, hcap]
        · simp [handleSimpleReverseEntry, hcap, hc]
  refine ⟨hsimple, ?_⟩
  unfold handleTurtleReverseEntry
  cases hfind : findTurtleSequence inst.id (reverseDirectionOf signal) now db with
  | some seq =>
    simp only
    by_cases hdup : db.turtle_positions.filter (fun p => p.sequence_id = seq.id ∧
        p.signal_quantity = signal.quantity ∧ p.status = "active") ≠ []
    · rw [if_pos hdup]
      exact ⟨rfl, rfl, Or.inl rfl⟩
    · rw [if_neg hdup]
      rw [turtleEntryCore_fail inst signal.marketPair place details seq.id
        seq.current_max_quantity signal.quantity (reverseSideOf signal) (ourSideOf signal)
        newPosId now db hfail]
      exact ⟨rfl, rfl, Or.inl rfl⟩
  | none =>
    simp only
    rw [turtleEntryCore_fail inst signal.marketPair place details newSeqId 0 signal.quantity
      (reverseSideOf signal) (ourSideOf signal) newPosId now _ hfail]
    exact ⟨rfl, rfl, Or.inr rfl⟩

theorem C3_exchange_failure_persists_no_position_witness :
    (handleSimpleReverseEntry btcSimpleInstance openLong3 PlaceResult.exn none
      "new-id" 7 ⟨[], [], []⟩).1 = ⟨[], [], []⟩ :=
  (C3_exchange_failure_persists_no_position btcSimpleInstance openLong3 PlaceResult.exn none
    "new-id" "new-seq" "new-pos" 7 ⟨[], [], []⟩ rfl).1

/-- C3 counterexample to the claim as stated: with no reusable sequence, a
turtle entry whose order is rejected by the venue (code `1`) still persists
the freshly inserted TurtleSequence row, so the set of rows after the
handler differs from the set before it. -/
theorem C3_rejected_turtle_entry_leaves_sequence :
    exchangeFailed (PlaceResult.res "1" "oid") none = true ∧
    (handleTurtleReverseEntry btcTurtleInstance openLong3 (PlaceResult.res "1" "oid") none
      "new-seq" "new-pos" 1000 ⟨[], [], []⟩).1.turtle_sequences =
      [{ id := "new-seq", strategy_instance_id := "inst-2", direction := "short",
         status := "active", current_max_quantity := 0, started_at := 1000,
         closed_at := none }] ∧
    (⟨[], [], []⟩ : DB).turtle_sequences = [] := by
  refine ⟨rfl, ?_, rfl⟩
  simp only [handleTurtleReverseEntry, findTurtleSequence, List.filter_nil, List.head?_nil,
    turtleEntryCore]
  split <;> rfl

/-! ### C6 -/

/-- C6: a successful turtle entry (venue code `0`, details retrievable,
positive computed size) behaves as specified.  With no active same-direction
sequence in the 8-hour lookback window it creates exactly one new active
sequence whose `current_max_quantity` ends equal to the signal's ordinal
quantity, plus exactly one active TurtlePosition tagged with that ordinal
and sized `min(positionSizes[q] ?? q*10, maxPositionSize)` rounded to one
decimal (`turtleSize`).  With such a sequence in the window, the sequence is
reused (no new sequence row) and its `current_max_quantity` becomes
`max(previous, q)`, with one new TurtlePosition appended to it. -/
theorem C6_turtle_entry_creates_or_extends (inst : StrategyInstance) (signal : ParsedSignal)
    (ordId : String) (avgPx : ℚ) (newSeqId newPosId : String) (now : ℤ) (db : DB)
    (hsize : 0 < turtleSize inst.config signal.quantity)
    (hq0 : 0 ≤ signal.quantity)
    (hfresh : ∀ s ∈ db.turtle_sequences, s.id ≠ newSeqId) :
    (findTurtleSequence inst.id (reverseDirectionOf signal) now db = none →
      (handleTurtleReverseEntry inst signal (PlaceResult.res "0" ordId) (some avgPx)
          newSeqId newPosId now db).1 =
        { simple_positions := db.simple_positions,
          turtle_sequences := db.turtle_sequences ++
            [{ id := newSeqId, strategy_instance_id := inst.id,
               direction := reverseDirectionOf signal, status := "active",
               current_max_quantity := signal.quantity, started_at := now, closed_at := none }],
          turtle_positions := db.turtle_positions ++
            [{ id := newPosId, sequence_id := newSeqId, side := ourSideOf signal,
               size := turtleSize inst.config signal.quantity, entry_price := avgPx,
               signal_quantity := signal.quantity, status := "active", order_id := ordId,
               opened_at := now }] }) ∧
    (∀ seq, findTurtleSequence inst.id (reverseDirectionOf signal) now db = some seq →
      db.turtle_positions.filter (fun p => p.sequence_id = seq.id ∧
        p.signal_quantity = signal.quantity ∧ p.status = "active") = [] →
      (handleTurtleReverseEntry inst signal (PlaceResult.res "0" ordId) (some avgPx)
          newSeqId newPosId now db).1 =
        { simple_positions := db.simple_positions,
          turtle_sequences := db.turtle_sequences.map (fun s =>
            if s.id = seq.id then
              { s with current_max_quantity := max seq.current_max_quantity signal.quantity }
            else s),
          turtle_positions := db.turtle_positions ++
            [{ id := newPosId, sequence_id := seq.id, side := ourSideOf signal,
               size := turtleSize inst.config signal.quantity, entry_price := avgPx,
               signal_quantity := signal.quantity, status := "active", order_id := ordId,
               opened_at := now }] }) := by
  obtain ⟨sp, ts, tp⟩ := db
  constructor
  · intro hfind
    simp only [handleTurtleReverseEntry, hfind, turtleEntryCore, if_neg (not_le.mpr hsize)]
    simp [List.map_append, max_eq_right hq0]
    have h := List.map_congr_left (l := ts)
      (f := fun s => if s.id = newSeqId then
        { s with current_max_quantity := signal.quantity } else s)
      (g := fun s => s) (fun s hs => by simp [hfresh s hs])
    simpa using h
  · intro seq hfind hdup
    simp only [handleTurtleReverseEntry, hfind]
    rw [if_neg (fun hne => hne hdup)]
    simp only [turtleEntryCore, if_neg (not_le.mpr hsize)]
    simp

/-- Fixture for the C6 witness: the expected database after a creating
turtle entry against an empty database. -/
def c6expected : DB :=
  { simple_positions := [],
    turtle_sequences :=
      [{ id := "seq-1", strategy_instance_id := "inst-2", direction := "short",
         status := "active", current_max_quantity := 3, started_at := 777, closed_at := none }],
    turtle_positions :=
      [{ id := "pos-1", sequence_id := "seq-1", side := "开空",
         size := turtleSize btcTurtleInstance.config 3, entry_price := 50000,
         signal_quantity := 3, status := "active", order_id := "ord-1", opened_at := 777 }] }

theorem C6_turtle_entry_creates_or_extends_witness :
    (handleTurtleReverseEntry btcTurtleInstance openLong3 (PlaceResult.res "0" "ord-1")
      (some 50000) "seq-1" "pos-1" 777 ⟨[], [], []⟩).1 = c6expected :=
  (C6_turtle_entry_creates_or_extends btcTurtleInstance openLong3 "ord-1" 50000 "seq-1" "pos-1"
    777 ⟨[], [], []⟩
    (by show 0 < turtleSize btcTurtleInstance.config 3
        rw [show turtleSize btcTurtleInstance.config 3 = round1 (30 : ℚ) from by
          norm_num [turtleSize, turtleBaseSize, jsOr, defaultPositionSizes, btcTurtleInstance,
            min_def],
        round1_eval 30 300 (by norm_num) (by norm_num)]
        norm_num)
    (by decide) (by simp)).1 rfl

/-! ### C4 -/

/-- Every order the partial-close loop emits is the rounded
`size * closeRatio` of one of the looped-over positions, and is positive
(the loop skips non-positive close sizes). -/
theorem partialCloseLoop_orders (marketPair : String) (closeRatio : ℚ)
    (closeRes : String → PlaceResult) (details : String → Option ℚ)
    (l : List TurtlePosition) (db : DB) :
    ∀ o ∈ (partialCloseLoop marketPair closeRatio closeRes details l db).2,
      ∃ p ∈ l, o.sz = round1 (p.size * closeRatio) ∧ 0 < o.sz := by
  induction l generalizing db with
  | nil => simp [partialCloseLoop]
  | cons pos rest ih =>
    intro o ho
    by_cases h : round1 (pos.size * closeRatio) ≤ 0
    · rw [partialCloseLoop, if_pos h] at ho
      obtain ⟨p, hp, he⟩ := ih _ o ho
      exact ⟨p, List.mem_cons_of_mem _ hp, he⟩
    · rw [partialCloseLoop, if_neg h] at ho
      simp only [List.mem_cons] at ho
      rcases ho with rfl | ho
      · exact ⟨pos, List.mem_cons_self _ _, rfl, not_le.mp h⟩
      · obtain ⟨p, hp, he⟩ := ih _ o ho
        exact ⟨p, List.mem_cons_of_mem _ hp, he⟩

/-- The partial-close loop never persists a non-positive size on an active
row: rows it fully closes become inactive, and a persisted reduced size is
guarded to exceed the `0.001` epsilon. -/
theorem partialCloseLoop_active_sizes (marketPair : String) (closeRatio : ℚ)
    (closeRes : String → PlaceResult) (details : String → Option ℚ)
    (l : List TurtlePosition) (db : DB) (sid : String)
    (hpre : ∀ p ∈ db.turtle_positions, p.sequence_id = sid → p.status = "active" → 0 < p.size) :
    ∀ p' ∈ (partialCloseLoop marketPair closeRatio closeRes details l db).1.turtle_positions,
      p'.sequence_id = sid → p'.status = "active" → 0 < p'.size := by
  induction l generalizing db with
  | nil => simpa [partialCloseLoop] using hpre
  | cons pos rest ih =>
    by_cases h : round1 (pos.size * closeRatio) ≤ 0
    · rw [partialCloseLoop, if_pos h]
      exact ih db hpre
    · rw [partialCloseLoop, if_neg h]
      simp only
      apply ih
      cases hres : closeRes pos.id with
      | exn => exact hpre
      | res code ordId =>
        by_cases hc : code = "0"
        · subst hc
          simp only [if_pos rfl]
          cases hdet : details pos.id with
          | none => exact hpre
          | some v =>
            by_cases hrem : pos.size - round1 (pos.size * closeRatio) ≤ 1 / 1000
            · rw [if_pos hrem]
              intro p' hp' hpsid hpact
              simp only [closeTPRow] at hp'
              obtain ⟨q, hq, rfl⟩ := List.mem_map.mp hp'
              by_cases hid : q.id = pos.id
              · simp [hid] at hpact
              · simp only [if_neg hid]
                simp only [if_neg hid] at hpsid hpact
                exact hpre q hq hpsid hpact
            · rw [if_neg hrem]
              intro p' hp' hpsid hpact
              simp only [setTPSize] at hp'
              obtain ⟨q, hq, rfl⟩ := List.mem_map.mp hp'
              by_cases hid : q.id = pos.id
              · simp only [if_pos hid]
                have : (1 : ℚ) / 1000 < pos.size - round1 (pos.size * closeRatio) :=
                  not_le.mp hrem
                simp only [if_pos hid] at hpsid hpact ⊢
                linarith
              · simp only [if_neg hid]
                simp only [if_neg hid] at hpsid hpact
                exact hpre q hq hpsid hpact
        · simp only [if_neg hc]
          exact hpre

/-- C4 (amended): for positions whose size is a positive whole number of
tenths (the only sizes the system ever persists, since entries and reduced
remainders are rounded to one decimal), partial profit-taking with a ratio
in (0, 1] closes at most the remaining size: each rounded close size is
bounded by the position's size, every emitted order is such a rounded close
size and positive, and afterwards every row of the sequence is either no
longer active or still has a strictly positive size. -/
theorem C4_partial_close_never_overcloses (sid : String) (r : ℚ) (marketPair : String)
    (closeRes : String → PlaceResult) (details : String → Option ℚ) (db : DB)
    (hr0 : 0 < r) (hr1 : r ≤ 1)
    (hsizes : ∀ p ∈ db.turtle_positions, p.sequence_id = sid → p.status = "active" →
      ∃ k : ℕ, 0 < k ∧ p.size = (k : ℚ) / 10) :
    (∀ p ∈ activeTPOf sid db, round1 (p.size * r) ≤ p.size) ∧
    (∀ o ∈ (executePartialProfitTaking sid r marketPair closeRes details db).2,
      ∃ p ∈ activeTPOf sid db, o.sz = round1 (p.size * r) ∧ 0 < o.sz ∧ o.sz ≤ p.size) ∧
    (∀ p' ∈ (executePartialProfitTaking sid r marketPair closeRes details db).1.turtle_positions,
      p'.sequence_id = sid → p'.status = "active" → 0 < p'.size) := by
  have hbound : ∀ p ∈ activeTPOf sid db, round1 (p.size * r) ≤ p.size := by
    intro p hp
    obtain ⟨hpmem, hcond⟩ := List.mem_filter.mp hp
    simp only [decide_eq_true_eq] at hcond
    obtain ⟨k, -, hk⟩ := hsizes p hpmem hcond.1 hcond.2
    rw [hk]
    exact round1_mul_le_of_tenths k r hr1
  have hpre : ∀ p ∈ db.turtle_positions, p.sequence_id = sid → p.status = "active" →
      0 < p.size := by
    intro p hp h1 h2
    obtain ⟨k, hk0, hk⟩ := hsizes p hp h1 h2
    rw [hk]
    positivity
  refine ⟨hbound, ?_, ?_⟩
  · intro o ho
    unfold executePartialProfitTaking at ho
    by_cases hemp : activeTPOf sid db = []
    · simp [hemp] at ho
    · rw [if_neg hemp] at ho
      obtain ⟨p, hp, hsz, hpos⟩ := partialCloseLoop_orders marketPair r closeRes details
        (activeTPOf sid db) db o ho
      exact ⟨p, hp, hsz, hpos, hsz ▸ hbound p hp⟩
  · unfold executePartialProfitTaking
    by_cases hemp : activeTPOf sid db = []
    · simpa [hemp] using hpre
    · rw [if_neg hemp]
      exact partialCloseLoop_active_sizes marketPair r closeRes details _ db sid hpre

theorem C4_partial_close_never_overcloses_witness :
    round1 (c7pos.size * 1) ≤ c7pos.size :=
  (C4_partial_close_never_overcloses "sqL" 1 "BTC-USDT-SWAP"
    (fun _ => PlaceResult.res "0" "oc") (fun _ => some 99) ⟨[], [c7seq], [c7pos]⟩
    (by norm_num) (by norm_num)
    (by intro p hp h1 h2
        simp only [List.mem_singleton] at hp
        subst hp
        exact ⟨300, by norm_num, by norm_num [c7pos]⟩)).1 c7pos
    (List.mem_filter.mpr ⟨by simp, by simp [c7pos]⟩)

/-- Fixture for the C4 counterexample: an active position whose size 0.05 is
not a whole number of tenths. -/
def c4smallPos : TurtlePosition :=
  { id := "tp-small", sequence_id := "sq4", side := "开多", size := 1 / 20,
    entry_price := 100, signal_quantity := 1, status := "active", order_id := "o", opened_at := 0 }

/-- C4 counterexample to the claim as stated (over every position of size
`s > 0` and ratio `0 < r ≤ 1`): for size 0.05 and ratio 1 the code rounds
the close size to 0.1 and sends an order for twice the remaining size. -/
theorem C4_overclose_counterexample :
    (0 : ℚ) < 1 ∧ (1 : ℚ) ≤ 1 ∧ c4smallPos.status = "active" ∧ 0 < c4smallPos.size ∧
    (executePartialProfitTaking "sq4" 1 "M" (fun _ => PlaceResult.res "0" "oc")
      (fun _ => some 99) ⟨[], [], [c4smallPos]⟩).2 = [⟨"M", "sell", 1 / 10⟩] ∧
    c4smallPos.size < 1 / 10 := by
  have hr : round1 ((1 : ℚ) / 20) = 1 / 10 := by
    rw [round1_eval (1 / 20) 1 (by norm_num) (by norm_num)]
    norm_num
  refine ⟨by norm_num, by norm_num, rfl, by norm_num [c4smallPos], ?_, by norm_num [c4smallPos]⟩
  norm_num [executePartialProfitTaking, activeTPOf, partialCloseLoop, closeTPRow,
    c4smallPos, hr]

/-! ### C5 -/

/-- The effect of one reconciliation pass on one simple position row: skip
rows with a non-positive entry price, close with the decided reason and the
stamped PnL otherwise, leave the row alone when no reason fires. -/
def simpleStepRow (config : Config) (price : ℚ) (now : ℤ) (p : SimplePosition) : SimplePosition :=
  if p.entry_price ≤ 0 then p
  else
    match simpleCloseReason config now (simplePnl p.side price p.entry_price) p.opened_at with
    | none => p
    | some reason =>
      { p with status := "closed", closed_at := some now, close_reason := some reason,
               pnl := some (simplePnl p.side price p.entry_price * p.entry_price * p.size) }

/-- With no exchange throw, the reconciliation loop rewrites exactly the
rows whose ids occur in the processed snapshot, each by `simpleStepRow`. -/
theorem simpleCheckLoop_map (inst : StrategyInstance) (price : ℚ) (now : ℤ)
    (l : List SimplePosition) (db : DB)
    (hnd : (db.simple_positions.map (fun p => p.id)).Nodup)
    (hmem : ∀ p ∈ l, p ∈ db.simple_positions)
    (hl : (l.map (fun p => p.id)).Nodup) :
    (simpleCheckLoop inst price now (fun _ => false) l db).1.simple_positions =
      db.simple_positions.map (fun p =>
        if p.id ∈ l.map (fun q => q.id) then simpleStepRow inst.config price now p else p) := by
  induction l generalizing db with
  | nil => simp [simpleCheckLoop]
  | cons pos rest ih =>
    have hposdb : pos ∈ db.simple_positions := hmem pos (List.mem_cons_self _ _)
    have hrestmem : ∀ p ∈ rest, p ∈ db.simple_positions :=
      fun p hp => hmem p (List.mem_cons_of_mem _ hp)
    have hl' : pos.id ∉ rest.map (fun p => p.id) ∧ (rest.map (fun p => p.id)).Nodup := by
      rw [List.map_cons] at hl
      exact List.nodup_cons.mp hl
    have hlrest : (rest.map (fun p => p.id)).Nodup := hl'.2
    have hposnotrest : pos.id ∉ rest.map (fun p => p.id) := hl'.1
    have heqrow : ∀ p ∈ db.simple_positions, p.id = pos.id → p = pos := by
      intro p hp hpid
      exact List.inj_on_of_nodup_map hnd hp hposdb hpid
    by_cases h0 : pos.entry_price ≤ 0
    · rw [simpleCheckLoop, if_pos h0, ih db hnd hrestmem hlrest]
      apply List.map_congr_left
      intro p hp
      by_cases hpid : p.id = pos.id
      · have hpp : p = pos := heqrow p hp hpid
        rw [if_neg, if_pos]
        · rw [hpp, simpleStepRow, if_pos h0]
        · simp [hpid]
        · rw [hpid]; exact hposnotrest
      · simp only [List.map_cons, List.mem_cons, hpid, false_or]
    · cases hreason : simpleCloseReason inst.config now
          (simplePnl pos.side price pos.entry_price) pos.opened_at with
      | none =>
        rw [simpleCheckLoop, if_neg h0]
        simp only [hreason]
        rw [ih db hnd hrestmem hlrest]
        apply List.map_congr_left
        intro p hp
        by_cases hpid : p.id = pos.id
        · have hpp : p = pos := heqrow p hp hpid
          rw [if_neg, if_pos]
          · rw [hpp, simpleStepRow, if_neg h0, hreason]
          · simp [hpid]
          · rw [hpid]; exact hposnotrest
        · simp only [List.map_cons, List.mem_cons, hpid, false_or]
      | some reason =>
        rw [simpleCheckLoop, if_neg h0]
        simp only [hreason, Bool.false_eq_true, if_false]
        set f : SimplePosition → SimplePosition := fun p =>
          { p with status := "closed", closed_at := some now, close_reason := some reason,
                   pnl := some (simplePnl pos.side price pos.entry_price *
                     pos.entry_price * pos.size) } with hf
        have hids : ((updateSimpleRow pos.id f db).simple_positions.map (fun p => p.id)) =
            db.simple_positions.map (fun p => p.id) := by
          simp only [updateSimpleRow, List.map_map]
          apply List.map_congr_left
          intro p _
          by_cases hpid : p.id = pos.id <;> simp [hpid, hf]
        have hnd' : ((updateSimpleRow pos.id f db).simple_positions.map (fun p => p.id)).Nodup := by
          rw [hids]; exact hnd
        have hmem' : ∀ p ∈ rest, p ∈ (updateSimpleRow pos.id f db).simple_positions := by
          intro p hp
          have hne : p.id ≠ pos.id := by
            intro he
            exact hposnotrest (he ▸ List.mem_map_of_mem (fun q => q.id) hp)
          have : p ∈ db.simple_positions := hrestmem p hp
          refine List.mem_map.mpr ⟨p, this, ?_⟩
          simp [hne]
        rw [ih (updateSimpleRow pos.id f db) hnd' hmem' hlrest]
        simp only [updateSimpleRow, List.map_map]
        apply List.map_congr_left
        intro p hp
        by_cases hpid : p.id = pos.id
        · have hpp : p = pos := heqrow p hp hpid
          simp only [Function.comp, if_pos hpid]
          have hfid : (f p).id = p.id := by simp [hf]
          rw [if_neg (by rw [hfid, hpid]; exact hposnotrest), if_pos (by simp [hpid])]
          rw [hpp, simpleStepRow, if_neg h0, hreason, hf]
        · simp only [Function.comp, if_neg hpid]
          simp only [List.map_cons, List.mem_cons, hpid, false_or]

/-- The closed form of a simple position row after the reconciliation pass
closes it with the given reason: stamped close time, reason, and realized
PnL `pnl * entry_price * size`. -/
def simpleClosedAs (price : ℚ) (now : ℤ) (reason : String) (pos : SimplePosition) :
    SimplePosition :=
  { pos with status := "closed", closed_at := some now, close_reason := some reason,
             pnl := some (simplePnl pos.side price pos.entry_price * pos.entry_price * pos.size) }

/-- C5 (amended): one reconciliation pass over an active position with a
positive entry price closes it exactly when, in priority order, PnL is at
least `profitTarget` (reason `profit_target`); otherwise PnL is at most
`stopLoss` (reason `stop_loss`); otherwise the elapsed time STRICTLY
exceeds `positionTimeoutHours` (reason `timeout`); and it leaves the row
unchanged when none fires.  The PnL is `(mark - entry)/entry` for our side
`开多` and `(entry - mark)/entry` for `开空`. -/
theorem C5_simple_position_close_rules (inst : StrategyInstance) (price : ℚ) (now : ℤ)
    (db : DB) (pos : SimplePosition)
    (hmem : pos ∈ db.simple_positions) (hinst : pos.strategy_instance_id = inst.id)
    (hact : pos.status = "active") (hentry : 0 < pos.entry_price)
    (hnd : (db.simple_positions.map (fun p => p.id)).Nodup) :
    (simplePnl pos.side price pos.entry_price =
      (if pos.side = "开多" then (price - pos.entry_price) / pos.entry_price
       else (pos.entry_price - price) / pos.entry_price)) ∧
    (simplePnl pos.side price pos.entry_price ≥ jsOr inst.config.profitTarget (3 / 10) →
      simpleClosedAs price now "profit_target" pos ∈
        (checkSimpleReversePositions inst (some price) now (fun _ => false) db).1.simple_positions) ∧
    (simplePnl pos.side price pos.entry_price < jsOr inst.config.profitTarget (3 / 10) →
      simplePnl pos.side price pos.entry_price ≤ jsOr inst.config.stopLoss (-(3 / 20)) →
      simpleClosedAs price now "stop_loss" pos ∈
        (checkSimpleReversePositions inst (some price) now (fun _ => false) db).1.simple_positions) ∧
    (simplePnl pos.side price pos.entry_price < jsOr inst.config.profitTarget (3 / 10) →
      jsOr inst.config.stopLoss (-(3 / 20)) < simplePnl pos.side price pos.entry_price →
      ((now - pos.opened_at : ℤ) : ℚ) > jsOr inst.config.positionTimeoutHours 6 * 3600000 →
      simpleClosedAs price now "timeout" pos ∈
        (checkSimpleReversePositions inst (some price) now (fun _ => false) db).1.simple_positions) ∧
    (simplePnl pos.side price pos.entry_price < jsOr inst.config.profitTarget (3 / 10) →
      jsOr inst.config.stopLoss (-(3 / 20)) < simplePnl pos.side price pos.entry_price →
      ((now - pos.opened_at : ℤ) : ℚ) ≤ jsOr inst.config.positionTimeoutHours 6 * 3600000 →
      pos ∈
        (checkSimpleReversePositions inst (some price) now (fun _ => false) db).1.simple_positions) := by
  have hposin : pos ∈ activeSimpleOf inst.id db :=
    List.mem_filter.mpr ⟨hmem, by simp [hinst, hact]⟩
  have hne : activeSimpleOf inst.id db ≠ [] := by
    intro h
    rw [h] at hposin
    exact absurd hposin (List.not_mem_nil _)
  have hsub : ((activeSimpleOf inst.id db).map (fun p => p.id)).Sublist
      (db.simple_positions.map (fun p => p.id)) :=
    List.Sublist.map _ (List.filter_sublist _)
  have hl : ((activeSimpleOf inst.id db).map (fun p => p.id)).Nodup := hnd.sublist hsub
  have hres : (checkSimpleReversePositions inst (some price) now (fun _ => false) db).1.simple_positions =
      db.simple_positions.map (fun p =>
        if p.id ∈ (activeSimpleOf inst.id db).map (fun q => q.id) then
          simpleStepRow inst.config price now p else p) := by
    rw [checkSimpleReversePositions]
    rw [if_neg hne]
    exact simpleCheckLoop_map inst price now (activeSimpleOf inst.id db) db hnd
      (fun p hp => (List.mem_filter.mp hp).1) hl
  have hidin : pos.id ∈ (activeSimpleOf inst.id db).map (fun q => q.id) :=
    List.mem_map_of_mem _ hposin
  have hstep : ∀ row : SimplePosition,
      simpleStepRow inst.config price now pos = row →
      row ∈ (checkSimpleReversePositions inst (some price) now (fun _ => false) db).1.simple_positions := by
    intro row hrow
    rw [hres]
    exact List.mem_map.mpr ⟨pos, hmem, by rw [if_pos hidin, hrow]⟩
  refine ⟨rfl, ?_, ?_, ?_, ?_⟩
  · intro h1
    exact hstep _ (by
      rw [simpleStepRow, if_neg (not_le.mpr hentry), simpleCloseReason, if_pos h1]
      rfl)
  · intro h1 h2
    exact hstep _ (by
      rw [simpleStepRow, if_neg (not_le.mpr hentry), simpleCloseReason,
        if_neg (not_le.mpr h1), if_pos h2]
      rfl)
  · intro h1 h2 h3
    exact hstep _ (by
      rw [simpleStepRow, if_neg (not_le.mpr hentry), simpleCloseReason,
        if_neg (not_le.mpr h1), if_neg (not_le.mpr h2), if_pos h3]
      rfl)
  · intro h1 h2 h3
    exact hstep _ (by
      rw [simpleStepRow, if_neg (not_le.mpr hentry), simpleCloseReason,
        if_neg (not_le.mpr h1), if_neg (not_le.mpr h2), if_neg (not_lt.mpr h3)])

/-- Fixture: an active simple position of `btcSimpleInstance`, entry 100,
opened at epoch 0. -/
def c5pos : SimplePosition :=
  { id := "sp-1", strategy_instance_id := "inst-1", side := "开多", size := 1,
    entry_price := 100, status := "active", order_id := "o", opened_at := 0,
    closed_at := none, close_reason := none, pnl := none }

theorem C5_simple_position_close_rules_witness :
    simpleClosedAs 131 1 "profit_target" c5pos ∈
      (checkSimpleReversePositions btcSimpleInstance (some 131) 1 (fun _ => false)
        ⟨[c5pos], [], []⟩).1.simple_positions :=
  (C5_simple_position_close_rules btcSimpleInstance 131 1 ⟨[c5pos], [], []⟩ c5pos
    (by simp) rfl rfl (by norm_num [c5pos]) (by simp)).2.1
    (by norm_num [simplePnl, c5pos, jsOr, btcSimpleInstance])

/-- C5 counterexample to the claim's `elapsed >= positionTimeoutHours`
clause: at exactly six hours elapsed (the default timeout), with no
profit/stop threshold crossed, the code's strict `>` comparison does not
fire and the pass leaves the database unchanged, while the claim requires a
`timeout` close. -/
theorem C5_timeout_boundary_counterexample :
    simplePnl c5pos.side 100 c5pos.entry_price <
      jsOr btcSimpleInstance.config.profitTarget (3 / 10) ∧
    jsOr btcSimpleInstance.config.stopLoss (-(3 / 20)) <
      simplePnl c5pos.side 100 c5pos.entry_price ∧
    ((21600000 - c5pos.opened_at : ℤ) : ℚ) ≥
      jsOr btcSimpleInstance.config.positionTimeoutHours 6 * 3600000 ∧
    (checkSimpleReversePositions btcSimpleInstance (some 100) 21600000 (fun _ => false)
      ⟨[c5pos], [], []⟩).1 = ⟨[c5pos], [], []⟩ := by
  refine ⟨?_, ?_, ?_, ?_⟩
  · norm_num [simplePnl, c5pos, jsOr, btcSimpleInstance]
  · norm_num [simplePnl, c5pos, jsOr, btcSimpleInstance]
  · norm_num [c5pos, jsOr, btcSimpleInstance]
  · norm_num [checkSimpleReversePositions, activeSimpleOf, simpleCheckLoop, simpleCloseReason,
      simplePnl, jsOr, c5pos, btcSimpleInstance]

/-! ### C2 -/

/-- The handover loop over simple positions closes exactly the rows whose
ids occur in the snapshot and whose close order does not throw (the venue
code is not consulted on this path). -/
theorem handoverSimpleLoop_map (marketPair : String) (closeRes : String → PlaceResult)
    (now : ℤ) (l : List SimplePosition) (db : DB)
    (hl : (l.map (fun p => p.id)).Nodup) :
    (handoverSimpleLoop marketPair closeRes now l db).1.simple_positions =
      db.simple_positions.map (fun p =>
        if p.id ∈ l.map (fun q => q.id) ∧ closeRes p.id ≠ PlaceResult.exn then
          { p with status := "closed", closed_at := some now,
                   close_reason := some "control_handover" }
        else p) := by
  induction l generalizing db with
  | nil => simp [handoverSimpleLoop]
  | cons pos rest ih =>
    have hl' : pos.id ∉ rest.map (fun p => p.id) ∧ (rest.map (fun p => p.id)).Nodup := by
      rw [List.map_cons] at hl
      exact List.nodup_cons.mp hl
    cases hres : closeRes pos.id with
    | exn =>
      rw [handoverSimpleLoop]
      simp only [hres]
      rw [ih db hl'.2]
      apply List.map_congr_left
      intro p _
      by_cases hpid : p.id = pos.id
      · rw [if_neg, if_neg]
        · intro hc
          exact hc.2 (hpid ▸ hres)
        · intro hc
          exact hl'.1 (hpid ▸ hc.1)
      · simp only [List.map_cons, List.mem_cons, hpid, false_or]
    | res code ordId =>
      rw [handoverSimpleLoop]
      simp only [hres]
      set f : SimplePosition → SimplePosition := fun p =>
        { p with status := "closed", closed_at := some now,
                 close_reason := some "control_handover" } with hf
      rw [ih (updateSimpleRow pos.id f db) hl'.2]
      simp only [updateSimpleRow, List.map_map]
      apply List.map_congr_left
      intro p _
      by_cases hpid : p.id = pos.id
      · simp only [Function.comp, if_pos hpid]
        have hfid : (f p).id = p.id := by simp [hf]
        rw [if_neg (by intro hc; exact hl'.1 (by rw [hfid, hpid] at hc; exact hc.1)),
          if_pos ⟨by simp [hpid], by rw [hpid, hres]; intro hc; exact PlaceResult.noConfusion hc⟩]
      · simp only [Function.comp, if_neg hpid]
        simp only [List.map_cons, List.mem_cons, hpid, false_or]

/-- The handover loop over simple positions leaves the turtle tables
untouched. -/
theorem handoverSimpleLoop_turtle (marketPair : String) (closeRes : String → PlaceResult)
    (now : ℤ) (l : List SimplePosition) (db : DB) :
    (handoverSimpleLoop marketPair closeRes now l db).1.turtle_sequences = db.turtle_sequences ∧
    (handoverSimpleLoop marketPair closeRes now l db).1.turtle_positions = db.turtle_positions := by
  induction l generalizing db with
  | nil => exact ⟨rfl, rfl⟩
  | cons pos rest ih =>
    rw [handoverSimpleLoop]
    cases closeRes pos.id with
    | exn => exact ih db
    | res code ordId => exact ih (updateSimpleRow pos.id _ db)

/-- The sequence-closing loop touches only the turtle position table. -/
theorem closeSeqLoop_other (marketPair : String) (closeRes : String → PlaceResult)
    (l : List TurtlePosition) (db : DB) :
    (closeSeqLoop marketPair closeRes l db).1.turtle_sequences = db.turtle_sequences ∧
    (closeSeqLoop marketPair closeRes l db).1.simple_positions = db.simple_positions := by
  induction l generalizing db with
  | nil => exact ⟨rfl, rfl⟩
  | cons pos rest ih =>
    rw [closeSeqLoop]
    cases closeRes pos.id with
    | exn => exact ih db
    | res code ordId =>
      by_cases hc : code = "0"
      · simpa [hc] using ih (closeTPRow pos.id db)
      · simpa [hc] using ih db

/-- `closeEntireSequence` stamps every sequence row with the target id
closed, whatever happened to the individual position closes. -/
theorem closeEntireSequence_closes (instances : List StrategyInstance) (sid : String)
    (closeRes : String → PlaceResult) (now : ℤ) (db : DB) :
    ∀ s ∈ (closeEntireSequence instances sid closeRes now db).1.turtle_sequences,
      s.id = sid → s.status = "closed" ∧ s.closed_at = some now := by
  intro s hs hsid
  simp only [closeEntireSequence] at hs
  split at hs <;>
  · simp only [closeSeqRow] at hs
    obtain ⟨q, hq, rfl⟩ := List.mem_map.mp hs
    by_cases hqid : q.id = sid
    · simp [hqid]
    · rw [if_neg hqid] at hsid ⊢
      exact absurd hsid hqid

/-- `closeEntireSequence` never reopens a sequence: rows with a given id
that were already closed and stamped at `now` stay so. -/
theorem closeEntireSequence_keeps_closed (instances : List StrategyInstance) (sid : String)
    (closeRes : String → PlaceResult) (now : ℤ) (db : DB) (i : String)
    (h : ∀ s ∈ db.turtle_sequences, s.id = i → s.status = "closed" ∧ s.closed_at = some now) :
    ∀ s ∈ (closeEntireSequence instances sid closeRes now db).1.turtle_sequences,
      s.id = i → s.status = "closed" ∧ s.closed_at = some now := by
  intro s hs hsid
  simp only [closeEntireSequence] at hs
  split at hs
  · simp only [closeSeqRow] at hs
    obtain ⟨q, hq, rfl⟩ := List.mem_map.mp hs
    by_cases hqid : q.id = sid
    · simp [hqid]
    · rw [if_neg hqid] at hsid ⊢
      exact h q hq hsid
  · simp only [closeSeqRow] at hs
    obtain ⟨q, hq, rfl⟩ := List.mem_map.mp hs
    rw [(closeSeqLoop_other _ _ _ _).1] at hq
    by_cases hqid : q.id = sid
    · simp [hqid]
    · rw [if_neg hqid] at hsid ⊢
      exact h q hq hsid

/-- The sequence loop of the handover stamps closed every sequence id it is
given, and never reopens one already stamped. -/
theorem handoverSeqFold_keeps_closed (instances : List StrategyInstance)
    (closeRes : String → PlaceResult) (now : ℤ) (l : List String) (db : DB) (i : String)
    (h : ∀ s ∈ db.turtle_sequences, s.id = i → s.status = "closed" ∧ s.closed_at = some now) :
    ∀ s ∈ (handoverSeqFold instances closeRes now l db).1.turtle_sequences,
      s.id = i → s.status = "closed" ∧ s.closed_at = some now := by
  induction l generalizing db with
  | nil => simpa [handoverSeqFold] using h
  | cons sid rest ih =>
    rw [handoverSeqFold]
    exact ih (closeEntireSequence instances sid closeRes now db).1
      (closeEntireSequence_keeps_closed instances sid closeRes now db i h)

theorem handoverSeqFold_closes (instances : List StrategyInstance)
    (closeRes : String → PlaceResult) (now : ℤ) (l : List String) (db : DB) :
    ∀ sid ∈ l, ∀ s ∈ (handoverSeqFold instances closeRes now l db).1.turtle_sequences,
      s.id = sid → s.status = "closed" ∧ s.closed_at = some now := by
  induction l generalizing db with
  | nil => simp
  | cons sid0 rest ih =>
    intro sid hsid
    rcases List.mem_cons.mp hsid with rfl | hsid'
    · rw [handoverSeqFold]
      exact handoverSeqFold_keeps_closed instances closeRes now rest _ sid
        (closeEntireSequence_closes instances sid closeRes now db)
    · rw [handoverSeqFold]
      exact ih (closeEntireSequence instances sid0 closeRes now db).1 sid hsid'

/-- `closeEntireSequence` leaves the simple position table untouched. -/
theorem closeEntireSequence_simple (instances : List StrategyInstance) (sid : String)
    (closeRes : String → PlaceResult) (now : ℤ) (db : DB) :
    (closeEntireSequence instances sid closeRes now db).1.simple_positions =
      db.simple_positions := by
  simp only [closeEntireSequence]
  split
  · rfl
  · simp only [closeSeqRow]
    exact (closeSeqLoop_other _ _ _ _).2

/-- The handover's sequence loop leaves the simple position table
untouched. -/
theorem handoverSeqFold_simple (instances : List StrategyInstance)
    (closeRes : String → PlaceResult) (now : ℤ) (l : List String) (db : DB) :
    (handoverSeqFold instances closeRes now l db).1.simple_positions = db.simple_positions := by
  induction l generalizing db with
  | nil => rfl
  | cons sid rest ih =>
    rw [handoverSeqFold]
    rw [ih (closeEntireSequence instances sid closeRes now db).1]
    exact closeEntireSequence_simple instances sid closeRes now db

/-- C2 (amended): Control Handover attempts every active position and
sequence regardless of earlier failures.  Every active SimplePosition of the
instance whose close order does not throw ends closed with reason
`control_handover`; one whose close order throws is left untouched (still
active); and every active TurtleSequence of the instance ends with status
`closed` stamped at the handover time, failures on its member positions
notwithstanding. -/
theorem C2_handover_best_effort (inst : StrategyInstance) (closeRes : String → PlaceResult)
    (now : ℤ) (instances : List StrategyInstance) (db : DB)
    (hnd : (db.simple_positions.map (fun p => p.id)).Nodup) :
    (∀ p ∈ db.simple_positions, p.strategy_instance_id = inst.id → p.status = "active" →
      closeRes p.id ≠ PlaceResult.exn →
      ({ p with status := "closed", closed_at := some now,
                close_reason := some "control_handover" } : SimplePosition) ∈
        (handleControlHandover inst closeRes now instances db).1.simple_positions) ∧
    (∀ p ∈ db.simple_positions, p.strategy_instance_id = inst.id → p.status = "active" →
      closeRes p.id = PlaceResult.exn →
      p ∈ (handleControlHandover inst closeRes now instances db).1.simple_positions) ∧
    (∀ s ∈ db.turtle_sequences, s.strategy_instance_id = inst.id → s.status = "active" →
      ∀ s' ∈ (handleControlHandover inst closeRes now instances db).1.turtle_sequences,
        s'.id = s.id → s'.status = "closed" ∧ s'.closed_at = some now) := by
  have hsub : ((activeSimpleOf inst.id db).map (fun p => p.id)).Sublist
      (db.simple_positions.map (fun p => p.id)) :=
    List.Sublist.map _ (List.filter_sublist _)
  have hl : ((activeSimpleOf inst.id db).map (fun p => p.id)).Nodup := hnd.sublist hsub
  have hmapchar := handoverSimpleLoop_map inst.marketPair closeRes now
    (activeSimpleOf inst.id db) db hl
  have hsimple : (handleControlHandover inst closeRes now instances db).1.simple_positions =
      db.simple_positions.map (fun p =>
        if p.id ∈ (activeSimpleOf inst.id db).map (fun q => q.id) ∧
            closeRes p.id ≠ PlaceResult.exn then
          { p with status := "closed", closed_at := some now,
                   close_reason := some "control_handover" }
        else p) := by
    rw [handleControlHandover]
    rw [handoverSeqFold_simple]
    exact hmapchar
  refine ⟨?_, ?_, ?_⟩
  · intro p hp hpinst hpact hpexn
    rw [hsimple]
    have hin : p ∈ activeSimpleOf inst.id db :=
      List.mem_filter.mpr ⟨hp, by simp [hpinst, hpact]⟩
    exact List.mem_map.mpr ⟨p, hp, by rw [if_pos ⟨List.mem_map_of_mem _ hin, hpexn⟩]⟩
  · intro p hp hpinst hpact hpexn
    rw [hsimple]
    exact List.mem_map.mpr ⟨p, hp, by rw [if_neg (fun hc => hc.2 hpexn)]⟩
  · intro s hs hsinst hsact s' hs' hsid
    rw [handleControlHandover] at hs'
    simp only at hs'
    have hseqs : (handoverSimpleLoop inst.marketPair closeRes now
        (activeSimpleOf inst.id db) db).1.turtle_sequences = db.turtle_sequences :=
      (handoverSimpleLoop_turtle inst.marketPair closeRes now (activeSimpleOf inst.id db) db).1
    have hsidin : s.id ∈ ((handoverSimpleLoop inst.marketPair closeRes now
        (activeSimpleOf inst.id db) db).1.turtle_sequences.filter
        (fun t => t.strategy_instance_id = inst.id ∧ t.status = "active")).map
        (fun t => t.id) := by
      rw [hseqs]
      exact List.mem_map_of_mem _ (List.mem_filter.mpr ⟨hs, by simp [hsinst, hsact]⟩)
    exact handoverSeqFold_closes instances closeRes now _ _ s.id hsidin s' hs' hsid

theorem C2_handover_best_effort_witness :
    ({ c5pos with status := "closed", closed_at := some 5,
                  close_reason := some "control_handover" } : SimplePosition) ∈
      (handleControlHandover btcSimpleInstance (fun _ => PlaceResult.res "0" "x") 5
        [btcSimpleInstance] ⟨[c5pos], [], []⟩).1.simple_positions :=
  (C2_handover_best_effort btcSimpleInstance (fun _ => PlaceResult.res "0" "x") 5
    [btcSimpleInstance] ⟨[c5pos], [], []⟩ (by simp)).1 c5pos (by simp) rfl rfl (by simp)

/-- C2 counterexample to the claim as stated: when the close order for the
only active SimplePosition throws, the handler leaves that row active, so it
is not true that no SimplePosition of the instance remains `active` after
Control Handover completes. -/
theorem C2_throwing_close_counterexample :
    c5pos.strategy_instance_id = btcSimpleInstance.id ∧ c5pos.status = "active" ∧
    (handleControlHandover btcSimpleInstance (fun _ => PlaceResult.exn) 5 [btcSimpleInstance]
      ⟨[c5pos], [], []⟩).1.simple_positions = [c5pos] := by
  refine ⟨rfl, rfl, ?_⟩
  norm_num [handleControlHandover, activeSimpleOf, handoverSimpleLoop, handoverSeqFold,
    c5pos, btcSimpleInstance]

/-! ### C10 -/

/-- Row updates by id preserve the id multiset of the turtle position
table. -/
theorem closeTPRow_ids (pid : String) (db : DB) :
    (closeTPRow pid db).turtle_positions.map (fun p => p.id) =
      db.turtle_positions.map (fun p => p.id) := by
  simp only [closeTPRow, List.map_map]
  apply List.map_congr_left
  intro p _
  by_cases h : p.id = pid <;> simp [h]

theorem setTPSize_ids (pid : String) (sz : ℚ) (db : DB) :
    (setTPSize pid sz db).turtle_positions.map (fun p => p.id) =
      db.turtle_positions.map (fun p => p.id) := by
  simp only [setTPSize, List.map_map]
  apply List.map_congr_left
  intro p _
  by_cases h : p.id = pid <;> simp [h]

theorem closeSeqLoop_ids (marketPair : String) (closeRes : String → PlaceResult)
    (l : List TurtlePosition) (db : DB) :
    (closeSeqLoop marketPair closeRes l db).1.turtle_positions.map (fun p => p.id) =
      db.turtle_positions.map (fun p => p.id) := by
  induction l generalizing db with
  | nil => rfl
  | cons pos rest ih =>
    rw [closeSeqLoop]
    cases closeRes pos.id with
    | exn => exact ih db
    | res code ordId =>
      simp only
      split
      · rw [ih (closeTPRow pos.id db)]
        exact closeTPRow_ids pos.id db
      · exact ih db

theorem partialCloseLoop_ids (marketPair : String) (closeRatio : ℚ)
    (closeRes : String → PlaceResult) (details : String → Option ℚ)
    (l : List TurtlePosition) (db : DB) :
    (partialCloseLoop marketPair closeRatio closeRes details l db).1.turtle_positions.map
        (fun p => p.id) =
      db.turtle_positions.map (fun p => p.id) := by
  induction l generalizing db with
  | nil => rfl
  | cons pos rest ih =>
    rw [partialCloseLoop]
    split
    · exact ih db
    · simp only
      cases closeRes pos.id with
      | exn => exact ih db
      | res code ordId =>
        simp only
        split
        · cases details pos.id with
          | none => exact ih db
          | some v =>
            simp only
            split
            · rw [ih (closeTPRow pos.id db)]
              exact closeTPRow_ids pos.id db
            · rw [ih (setTPSize pos.id _ db)]
              exact setTPSize_ids pos.id _ db
        · exact ih db

/-- Membership of a foreign (or failing) row survives the sequence-closing
loop: a row is only marked closed when its own close order returns code
`0`. -/
theorem closeSeqLoop_mem (marketPair : String) (closeRes : String → PlaceResult)
    (l : List TurtlePosition) (db : DB) (pos : TurtlePosition)
    (h : ∀ q ∈ l, q.id = pos.id → ∀ i, closeRes q.id ≠ PlaceResult.res "0" i)
    (hmem : pos ∈ db.turtle_positions) :
    pos ∈ (closeSeqLoop marketPair closeRes l db).1.turtle_positions := by
  induction l generalizing db with
  | nil => exact hmem
  | cons q rest ih =>
    rw [closeSeqLoop]
    have hrest : ∀ q' ∈ rest, q'.id = pos.id → ∀ i, closeRes q'.id ≠ PlaceResult.res "0" i :=
      fun q' hq' => h q' (List.mem_cons_of_mem _ hq')
    cases hres : closeRes q.id with
    | exn => exact ih db hrest hmem
    | res code ordId =>
      by_cases hc : code = "0"
      · subst hc
        have hqid : q.id ≠ pos.id := by
          intro he
          exact h q (List.mem_cons_self _ _) he ordId hres
        simp only [if_pos rfl]
        refine ih (closeTPRow q.id db) hrest ?_
        simp only [closeTPRow]
        exact List.mem_map.mpr ⟨pos, hmem, by rw [if_neg (fun hx => hqid hx.symm)]⟩
      · simp only [if_neg hc]
        exact ih db hrest hmem

/-- Membership of a foreign row survives the partial-close loop. -/
theorem partialCloseLoop_mem (marketPair : String) (closeRatio : ℚ)
    (closeRes : String → PlaceResult) (details : String → Option ℚ)
    (l : List TurtlePosition) (db : DB) (pos : TurtlePosition)
    (h : ∀ q ∈ l, q.id ≠ pos.id)
    (hmem : pos ∈ db.turtle_positions) :
    pos ∈ (partialCloseLoop marketPair closeRatio closeRes details l db).1.turtle_positions := by
  induction l generalizing db with
  | nil => exact hmem
  | cons q rest ih =>
    rw [partialCloseLoop]
    have hq : q.id ≠ pos.id := h q (List.mem_cons_self _ _)
    have hrest : ∀ q' ∈ rest, q'.id ≠ pos.id := fun q' hq' => h q' (List.mem_cons_of_mem _ hq')
    by_cases h0 : round1 (q.size * closeRatio) ≤ 0
    · rw [if_pos h0]
      exact ih db hrest hmem
    · rw [if_neg h0]
      simp only
      cases closeRes q.id with
      | exn => exact ih db hrest hmem
      | res code ordId =>
        by_cases hc : code = "0"
        · simp only [hc, if_pos rfl]
          cases details q.id with
          | none => exact ih db hrest hmem
          | some v =>
            by_cases hrem : q.size - round1 (q.size * closeRatio) ≤ 1 / 1000
            · rw [if_pos hrem]
              refine ih (closeTPRow q.id db) hrest ?_
              simp only [closeTPRow]
              exact List.mem_map.mpr ⟨pos, hmem, by rw [if_neg (fun hx => hq hx.symm)]⟩
            · rw [if_neg hrem]
              refine ih (setTPSize q.id _ db) hrest ?_
              simp only [setTPSize]
              exact List.mem_map.mpr ⟨pos, hmem, by rw [if_neg (fun hx => hq hx.symm)]⟩
        · simp only [if_neg hc]
          exact ih db hrest hmem

theorem closeEntireSequence_tp_ids (instances : List StrategyInstance) (sid : String)
    (closeRes : String → PlaceResult) (now : ℤ) (db : DB) :
    (closeEntireSequence instances sid closeRes now db).1.turtle_positions.map (fun p => p.id) =
      db.turtle_positions.map (fun p => p.id) := by
  simp only [closeEntireSequence]
  split
  · rfl
  · simp only [closeSeqRow]
    exact closeSeqLoop_ids _ _ _ _

/-- A position of another sequence, or one whose own close order fails,
survives `closeEntireSequence` untouched. -/
theorem closeEntireSequence_mem (instances : List StrategyInstance) (sid : String)
    (closeRes : String → PlaceResult) (now : ℤ) (db : DB) (pos : TurtlePosition)
    (hnd : (db.turtle_positions.map (fun p => p.id)).Nodup)
    (hmem : pos ∈ db.turtle_positions)
    (hcase : pos.sequence_id ≠ sid ∨ ∀ i, closeRes pos.id ≠ PlaceResult.res "0" i) :
    pos ∈ (closeEntireSequence instances sid closeRes now db).1.turtle_positions := by
  simp only [closeEntireSequence]
  split
  · exact hmem
  · simp only [closeSeqRow]
    apply closeSeqLoop_mem _ closeRes _ db pos _ hmem
    intro q hq hqid
    have hq' : q ∈ activeTPOf sid db := by
      revert hq
      cases (db.turtle_sequences.find? (fun s => s.id = sid)).bind
          (fun s => (instances.find? (fun i => i.id = s.strategy_instance_id)).map
            (fun i => i.marketPair)) with
      | none => intro hq; exact absurd hq (List.not_mem_nil _)
      | some mkt => intro hq; exact hq
    obtain ⟨hqdb, hqcond⟩ := List.mem_filter.mp hq'
    simp only [decide_eq_true_eq] at hqcond
    have : q = pos := List.inj_on_of_nodup_map hnd hqdb hmem hqid
    subst this
    rcases hcase with hne | hfail
    · exact absurd hqcond.1 hne
    · exact hfail

/-- A position of another sequence survives `executePartialProfitTaking`
untouched. -/
theorem executePartialProfitTaking_mem (sid : String) (closeRatio : ℚ) (marketPair : String)
    (closeRes : String → PlaceResult) (details : String → Option ℚ) (db : DB)
    (pos : TurtlePosition)
    (hnd : (db.turtle_positions.map (fun p => p.id)).Nodup)
    (hmem : pos ∈ db.turtle_positions)
    (hforeign : pos.sequence_id ≠ sid) :
    pos ∈ (executePartialProfitTaking sid closeRatio marketPair closeRes
      details db).1.turtle_positions := by
  simp only [executePartialProfitTaking]
  split
  · exact hmem
  · apply partialCloseLoop_mem _ _ _ _ _ db pos _ hmem
    intro q hq
    obtain ⟨hqdb, hqcond⟩ := List.mem_filter.mp hq
    simp only [decide_eq_true_eq] at hqcond
    intro hqid
    have : q = pos := List.inj_on_of_nodup_map hnd hqdb hmem hqid
    subst this
    exact hforeign hqcond.1

theorem executePartialProfitTaking_ids (sid : String) (closeRatio : ℚ) (marketPair : String)
    (closeRes : String → PlaceResult) (details : String → Option ℚ) (db : DB) :
    (executePartialProfitTaking sid closeRatio marketPair closeRes
        details db).1.turtle_positions.map (fun p => p.id) =
      db.turtle_positions.map (fun p => p.id) := by
  simp only [executePartialProfitTaking]
  split
  · rfl
  · exact partialCloseLoop_ids _ _ _ _ _ _

theorem turtleSeqStep_tp_ids (inst : StrategyInstance) (price : ℚ) (now : ℤ)
    (instances : List StrategyInstance) (oracles : TurtleOracles) (s : TurtleSequence)
    (db : DB) :
    (turtleSeqStep inst price now instances oracles s db).1.turtle_positions.map
        (fun p => p.id) =
      db.turtle_positions.map (fun p => p.id) := by
  simp only [turtleSeqStep]
  split
  · exact closeEntireSequence_tp_ids _ _ _ _ _
  · split
    · rfl
    · split
      · rfl
      · split
        · exact closeEntireSequence_tp_ids _ _ _ _ _
        · split
          · exact executePartialProfitTaking_ids _ _ _ _ _ _
          · rfl

/-- A position whose sequence is not the one being examined survives one
step of the turtle reconciliation loop untouched. -/
theorem turtleSeqStep_mem (inst : StrategyInstance) (price : ℚ) (now : ℤ)
    (instances : List StrategyInstance) (oracles : TurtleOracles) (s : TurtleSequence)
    (db : DB) (pos : TurtlePosition)
    (hnd : (db.turtle_positions.map (fun p => p.id)).Nodup)
    (hmem : pos ∈ db.turtle_positions)
    (hs : s.id ≠ pos.sequence_id) :
    pos ∈ (turtleSeqStep inst price now instances oracles s db).1.turtle_positions := by
  simp only [turtleSeqStep]
  split
  · exact closeEntireSequence_mem _ _ _ _ _ _ hnd hmem (Or.inl (fun he => hs he.symm))
  · split
    · exact hmem
    · split
      · exact hmem
      · split
        · exact closeEntireSequence_mem _ _ _ _ _ _ hnd hmem (Or.inl (fun he => hs he.symm))
        · split
          · exact executePartialProfitTaking_mem _ _ _ _ _ _ _ hnd hmem
              (fun he => hs he.symm)
          · exact hmem

theorem turtleSeqFold_mem (inst : StrategyInstance) (price : ℚ) (now : ℤ)
    (instances : List StrategyInstance) (oracles : TurtleOracles)
    (l : List TurtleSequence) (db : DB) (pos : TurtlePosition)
    (hnd : (db.turtle_positions.map (fun p => p.id)).Nodup)
    (hmem : pos ∈ db.turtle_positions)
    (hl : ∀ s ∈ l, s.id ≠ pos.sequence_id) :
    pos ∈ (turtleSeqFold inst price now instances oracles l db).1.turtle_positions := by
  induction l generalizing db with
  | nil => exact hmem
  | cons s rest ih =>
    rw [turtleSeqFold]
    refine ih (turtleSeqStep inst price now instances oracles s db).1 ?_ ?_
      (fun s' hs' => hl s' (List.mem_cons_of_mem _ hs'))
    · rw [turtleSeqStep_tp_ids]
      exact hnd
    · exact turtleSeqStep_mem inst price now instances oracles s db pos hnd hmem
        (hl s (List.mem_cons_self _ _))

/-- A position all of whose sequence rows are no longer `active` is never
examined nor modified by a turtle reconciliation pass. -/
theorem checkTurtleReverseSequences_mem (inst : StrategyInstance) (markPrice : Option ℚ)
    (now : ℤ) (instances : List StrategyInstance) (oracles : TurtleOracles) (db : DB)
    (pos : TurtlePosition)
    (hnd : (db.turtle_positions.map (fun p => p.id)).Nodup)
    (hmem : pos ∈ db.turtle_positions)
    (hclosed : ∀ s ∈ db.turtle_sequences, s.id = pos.sequence_id → s.status ≠ "active") :
    pos ∈ (checkTurtleReverseSequences inst markPrice now instances
      oracles db).1.turtle_positions := by
  simp only [checkTurtleReverseSequences]
  split
  · exact hmem
  · cases markPrice with
    | none => exact hmem
    | some price =>
      apply turtleSeqFold_mem inst price now instances oracles _ db pos hnd hmem
      intro s hs
      obtain ⟨hsdb, hscond⟩ := List.mem_filter.mp hs
      simp only [decide_eq_true_eq] at hscond
      intro he
      exact hclosed s hsdb he hscond.2

theorem handoverSeqFold_tp_mem (instances : List StrategyInstance)
    (closeRes : String → PlaceResult) (now : ℤ) (l : List String) (db : DB)
    (pos : TurtlePosition)
    (hnd : (db.turtle_positions.map (fun p => p.id)).Nodup)
    (hmem : pos ∈ db.turtle_positions)
    (hl : ∀ sid ∈ l, sid ≠ pos.sequence_id) :
    pos ∈ (handoverSeqFold instances closeRes now l db).1.turtle_positions := by
  induction l generalizing db with
  | nil => exact hmem
  | cons sid rest ih =>
    rw [handoverSeqFold]
    refine ih (closeEntireSequence instances sid closeRes now db).1 ?_ ?_
      (fun s' hs' => hl s' (List.mem_cons_of_mem _ hs'))
    · rw [closeEntireSequence_tp_ids]
      exact hnd
    · exact closeEntireSequence_mem instances sid closeRes now db pos hnd hmem
        (Or.inl (fun he => hl sid (List.mem_cons_self _ _) he.symm))

/-- A position all of whose sequence rows are no longer `active` is never
examined nor modified by Control Handover. -/
theorem handleControlHandover_tp_mem (inst : StrategyInstance)
    (closeRes : String → PlaceResult) (now : ℤ) (instances : List StrategyInstance)
    (db : DB) (pos : TurtlePosition)
    (hnd : (db.turtle_positions.map (fun p => p.id)).Nodup)
    (hmem : pos ∈ db.turtle_positions)
    (hclosed : ∀ s ∈ db.turtle_sequences, s.id = pos.sequence_id → s.status ≠ "active") :
    pos ∈ (handleControlHandover inst closeRes now instances db).1.turtle_positions := by
  rw [handleControlHandover]
  simp only
  have hturtle := handoverSimpleLoop_turtle inst.marketPair closeRes now
    (activeSimpleOf inst.id db) db
  apply handoverSeqFold_tp_mem instances closeRes now _ _ pos
  · rw [hturtle.2]
    exact hnd
  · rw [hturtle.2]
    exact hmem
  · intro sid hsid
    rw [hturtle.1] at hsid
    obtain ⟨s, hs, rfl⟩ := List.mem_map.mp hsid
    obtain ⟨hsdb, hscond⟩ := List.mem_filter.mp hs
    simp only [decide_eq_true_eq] at hscond
    intro he
    exact hclosed s hsdb he hscond.2

/-- C10: `closeEntireSequence` stamps the sequence closed even when a member
position's close order was rejected by the venue; that position keeps its
row (still `active`), and because both the turtle reconciliation pass and
Control Handover select only sequences with status `active`, no later pass
of either kind ever examines or modifies the stranded position. -/
theorem C10_closed_sequence_strands_failed_positions
    (instances : List StrategyInstance) (closeRes : String → PlaceResult) (now : ℤ)
    (db : DB) (pos : TurtlePosition) (code ordId : String)
    (hnd : (db.turtle_positions.map (fun p => p.id)).Nodup)
    (hmem : pos ∈ db.turtle_positions) (hact : pos.status = "active")
    (hfail : closeRes pos.id = PlaceResult.res code ordId) (hcode : code ≠ "0")
    (inst2 : StrategyInstance) (markPrice : Option ℚ) (now2 : ℤ)
    (instances2 : List StrategyInstance) (oracles2 : TurtleOracles)
    (closeRes3 : String → PlaceResult) :
    pos.status = "active" ∧
    (∀ s ∈ (closeEntireSequence instances pos.sequence_id closeRes now db).1.turtle_sequences,
      s.id = pos.sequence_id → s.status = "closed" ∧ s.closed_at = some now) ∧
    pos ∈ (closeEntireSequence instances pos.sequence_id closeRes now db).1.turtle_positions ∧
    pos ∈ (checkTurtleReverseSequences inst2 markPrice now2 instances2 oracles2
      (closeEntireSequence instances pos.sequence_id closeRes now db).1).1.turtle_positions ∧
    pos ∈ (handleControlHandover inst2 closeRes3 now2 instances2
      (closeEntireSequence instances pos.sequence_id closeRes now db).1).1.turtle_positions := by
  have hnofill : ∀ i, closeRes pos.id ≠ PlaceResult.res "0" i := by
    intro i h
    rw [hfail] at h
    cases h
    exact hcode rfl
  have hclosed := closeEntireSequence_closes instances pos.sequence_id closeRes now db
  have hmem1 : pos ∈ (closeEntireSequence instances pos.sequence_id closeRes
      now db).1.turtle_positions :=
    closeEntireSequence_mem instances pos.sequence_id closeRes now db pos hnd hmem
      (Or.inr hnofill)
  have hnd1 : ((closeEntireSequence instances pos.sequence_id closeRes
      now db).1.turtle_positions.map (fun p => p.id)).Nodup := by
    rw [closeEntireSequence_tp_ids]
    exact hnd
  have hclosed1 : ∀ s ∈ (closeEntireSequence instances pos.sequence_id closeRes
      now db).1.turtle_sequences, s.id = pos.sequence_id → s.status ≠ "active" := by
    intro s hs hsid
    rw [(hclosed s hs hsid).1]
    simp
  exact ⟨hact, hclosed, hmem1,
    checkTurtleReverseSequences_mem inst2 markPrice now2 instances2 oracles2 _ pos hnd1
      hmem1 hclosed1,
    handleControlHandover_tp_mem inst2 closeRes3 now2 instances2 _ pos hnd1 hmem1 hclosed1⟩

theorem C10_closed_sequence_strands_failed_positions_witness :
    c7pos ∈ (checkTurtleReverseSequences btcTurtleInstance (some 100) 99 [btcTurtleInstance]
      ⟨fun _ => PlaceResult.res "0" "y", fun _ => some 100⟩
      (closeEntireSequence [btcTurtleInstance] c7pos.sequence_id
        (fun _ => PlaceResult.res "1" "x") 9 ⟨[], [c7seq], [c7pos]⟩).1).1.turtle_positions :=
  (C10_closed_sequence_strands_failed_positions [btcTurtleInstance]
    (fun _ => PlaceResult.res "1" "x") 9 ⟨[], [c7seq], [c7pos]⟩ c7pos "1" "x"
    (by simp) (by simp) rfl rfl (by simp)
    btcTurtleInstance (some 100) 99 [btcTurtleInstance]
    ⟨fun _ => PlaceResult.res "0" "y", fun _ => some 100⟩
    (fun _ => PlaceResult.exn)).2.2.2.1

end ReverseBot
